import Mathlib

/-!
Shallow embedding of the collaborative-filtering pipeline in
`Project2/src/als.py` and `Project2/stack.py` (repository Sytta/MLProjects),
together with theorems settling the claims C1-C10 about its specification.

Modelling conventions:
* Ratings and factor entries are exact rationals (`ℚ`); RMSE values, which go
  through `np.sqrt`, live in `ℝ` via `Real.sqrt`.
* A user-by-movie ratings matrix is `Matrix (Fin U) (Fin M) ℚ`; as in the
  Python code (which uses `.nonzero()`), an entry equal to `0` means
  "unobserved".
* Python code that can raise (`ZeroDivisionError` in `compute_error`,
  `numpy.linalg.LinAlgError` in `np.linalg.solve`, `IndexError` /
  `ValueError` in sparse-matrix construction, the `NameError` on the
  misspelled `bset_lambda_user`) is modelled with `Option`: `none` means the
  exception propagates.
* Randomness (`np.random.rand`, `np.random.choice`) is modelled by passing
  the drawn values explicitly as arguments.
-/

open Matrix

namespace MLP

/-! ### np.linalg.solve

`np.linalg.solve(A, V)` returns the unique solution of `A x = V` and raises
`LinAlgError` when `A` is singular; in exact arithmetic that is `A.det = 0`.
The solution is expressed through Cramer's rule (`det⁻¹ • adjugate A *ᵥ V`),
which coincides with the unique solution when `A.det ≠ 0`. -/
def solveLin {n : ℕ} (A : Matrix (Fin n) (Fin n) ℚ) (V : Fin n → ℚ) : Option (Fin n → ℚ) :=
  if A.det = 0 then none else some ((A.det)⁻¹ • (A.adjugate *ᵥ V))

theorem solveLin_correct {n : ℕ} {A : Matrix (Fin n) (Fin n) ℚ} {V z : Fin n → ℚ}
    (h : solveLin A V = some z) : A *ᵥ z = V := by
  unfold solveLin at h
  split at h
  · exact absurd h (by simp)
  · rename_i hd
    obtain rfl : (A.det)⁻¹ • (A.adjugate *ᵥ V) = z := by simpa using h
    rw [Matrix.mulVec_smul, Matrix.mulVec_mulVec, Matrix.mul_adjugate,
      Matrix.smul_mulVec_assoc, Matrix.one_mulVec, smul_smul,
      inv_mul_cancel₀ hd, one_smul]

theorem solveLin_isSome_iff {n : ℕ} (A : Matrix (Fin n) (Fin n) ℚ) (V : Fin n → ℚ) :
    (solveLin A V).isSome = true ↔ A.det ≠ 0 := by
  unfold solveLin
  split <;> simp_all

/-- Evaluation rule for 1×1 systems, used to run the embedding on concrete
inputs (the generic `Matrix.det` does not reduce by `decide`). -/
theorem solveLin_one (A : Matrix (Fin 1) (Fin 1) ℚ) (V : Fin 1 → ℚ) :
    solveLin A V = if A 0 0 = 0 then none else some ((A 0 0)⁻¹ • V) := by
  unfold solveLin
  rw [Matrix.det_fin_one, Matrix.adjugate_fin_one, Matrix.one_mulVec]

/-! ### als.py: preprocess_data

`preprocess_data` parses each line into `(row, col, rating)`, computes
min/max row and column over the records, allocates
`sp.lil_matrix((max_row, max_col))` and stores each record at
`[row - 1, col - 1]`.  String parsing (`deal_line`) is external I/O; the
embedding starts from the parsed records `(row, col, rating) : ℤ × ℤ × ℚ`.

`scipy` sparse matrices resolve a negative index `i` as `i + shape` and only
raise `IndexError` when the resolved index is still out of range; allocating
a matrix with a negative dimension raises `ValueError`; `min`/`max` over an
empty record set raises `ValueError`.  All of these are modelled as
`none`. -/
structure LilMatrix where
  rows : ℕ
  cols : ℕ
  entry : ℕ → ℕ → ℚ

/-- Index resolution of `scipy`'s sparse `__setitem__`: a negative index is
shifted by the dimension, and the result must land in `[0, n)`. -/
def lilIndex (n : ℕ) (i : ℤ) : Option ℕ :=
  let i' := if i < 0 then i + n else i
  if 0 ≤ i' ∧ i' < n then some i'.toNat else none

/-- Model of `ratings[i, j] = v` on a `lil_matrix`. -/
def lilSet (A : LilMatrix) (i j : ℤ) (v : ℚ) : Option LilMatrix :=
  match lilIndex A.rows i, lilIndex A.cols j with
  | some i', some j' =>
      some ⟨A.rows, A.cols, fun r c => if r = i' ∧ c = j' then v else A.entry r c⟩
  | _, _ => none

/-- Model of `sp.lil_matrix((r, c))`: negative shape raises `ValueError`. -/
def lilNew (r c : ℤ) : Option LilMatrix :=
  if r < 0 ∨ c < 0 then none else some ⟨r.toNat, c.toNat, fun _ _ => 0⟩

/-- The `statistics` helper of `preprocess_data`: min and max of the row and
column indices; `min`/`max` of an empty collection raises `ValueError`. -/
def statistics : List (ℤ × ℤ × ℚ) → Option (ℤ × ℤ × ℤ × ℤ)
  | [] => none
  | d :: ds =>
      let rows := (d :: ds).map fun r => r.1
      let cols := (d :: ds).map fun r => r.2.1
      some (rows.foldl min d.1, rows.foldl max d.1, cols.foldl min d.2.1, cols.foldl max d.2.1)

/-- `preprocess_data` (als.py lines 23-48), starting from parsed records. -/
def preprocess_data (data : List (ℤ × ℤ × ℚ)) : Option LilMatrix := do
  let (_, max_row, _, max_col) ← statistics data
  let ratings ← lilNew max_row max_col
  data.foldlM (fun acc r => lilSet acc (r.1 - 1) (r.2.1 - 1) r.2.2) ratings

theorem lilSet_dims {A B : LilMatrix} {i j : ℤ} {v : ℚ} (h : lilSet A i j v = some B) :
    B.rows = A.rows ∧ B.cols = A.cols := by
  unfold lilSet at h
  split at h <;> simp_all
  obtain ⟨rfl, _⟩ := h
  exact ⟨rfl, rfl⟩

theorem foldlM_lilSet_none {data : List (ℤ × ℤ × ℚ)} {A : LilMatrix} {bad : ℤ × ℤ × ℚ}
    (hmem : bad ∈ data)
    (hfail : ∀ B : LilMatrix, B.rows = A.rows → B.cols = A.cols →
      lilSet B (bad.1 - 1) (bad.2.1 - 1) bad.2.2 = none) :
    data.foldlM (fun acc r => lilSet acc (r.1 - 1) (r.2.1 - 1) r.2.2) A = none := by
  induction data generalizing A with
  | nil => cases hmem
  | cons d ds ih =>
      rw [List.foldlM_cons]
      rcases List.mem_cons.mp hmem with rfl | hmem'
      · rw [hfail A rfl rfl]; rfl
      · cases hset : lilSet A (d.1 - 1) (d.2.1 - 1) d.2.2 with
        | none => rfl
        | some A' =>
            obtain ⟨hr, hc⟩ := lilSet_dims hset
            simpa using ih hmem' (fun B h1 h2 => hfail B (h1.trans hr) (h2.trans hc))

theorem le_foldl_max (l : List ℤ) (a : ℤ) :
    a ≤ l.foldl max a ∧ ∀ x ∈ l, x ≤ l.foldl max a := by
  induction l generalizing a with
  | nil => simp
  | cons b bs ih =>
      refine ⟨?_, ?_⟩
      · exact le_trans (le_max_left a b) (ih (max a b)).1
      · intro x hx
        rcases List.mem_cons.mp hx with rfl | hx'
        · exact le_trans (le_max_right a x) (ih (max a x)).1
        · exact (ih (max a b)).2 x hx'

/-- Any record's row index is bounded by `max_row` from `statistics`, and
similarly for columns. -/
theorem statistics_max {data : List (ℤ × ℤ × ℚ)} {mnr mxr mnc mxc : ℤ}
    (h : statistics data = some (mnr, mxr, mnc, mxc)) :
    ∀ r ∈ data, r.1 ≤ mxr ∧ r.2.1 ≤ mxc := by
  match data with
  | [] => simp [statistics] at h
  | d :: ds =>
      simp only [statistics, Option.some.injEq, Prod.mk.injEq] at h
      obtain ⟨-, h2, -, h4⟩ := h
      intro r hr
      constructor
      · rw [← h2]
        exact (le_foldl_max _ _).2 r.1 (List.mem_map.mpr ⟨r, hr, rfl⟩)
      · rw [← h4]
        exact (le_foldl_max _ _).2 r.2.1 (List.mem_map.mpr ⟨r, hr, rfl⟩)

/-! ### als.py: nonzero pairs, index groups, observation counts

`train.nonzero()` enumerates observed entries in row-major order;
`build_index_groups` groups them by row (per-user observed movies) and by
column (per-movie observing users).  Because `group_by` sorts by the group
key and the pair list is row-major, the grouped lists below — rows in
ascending order, each with its ascending column list, and symmetrically —
are exactly what `build_index_groups` produces. -/

variable {U M F : ℕ}

/-- The observed `(row, col)` pairs (`nz_train` in als.py), row-major. -/
def nonzeroPairs (train : Matrix (Fin U) (Fin M) ℚ) : List (Fin U × Fin M) :=
  (List.finRange U).flatMap fun u =>
    ((List.finRange M).filter fun m => train u m ≠ 0).map fun m => (u, m)

/-- Per-user groups: `nz_row_colindices` in `build_index_groups` — for each
user (row) with at least one observation, the movies they rated. -/
def nz_row_colindices (train : Matrix (Fin U) (Fin M) ℚ) : List (Fin U × List (Fin M)) :=
  (List.finRange U).filterMap fun u =>
    if ((List.finRange M).filter fun m => train u m ≠ 0).isEmpty then none
    else some (u, (List.finRange M).filter fun m => train u m ≠ 0)

/-- Per-movie groups: `nz_col_rowindices` in `build_index_groups` — for each
movie (column) with at least one observation, the users who rated it. -/
def nz_col_rowindices (train : Matrix (Fin U) (Fin M) ℚ) : List (Fin M × List (Fin U)) :=
  (List.finRange M).filterMap fun m =>
    if ((List.finRange U).filter fun u => train u m ≠ 0).isEmpty then none
    else some (m, (List.finRange U).filter fun u => train u m ≠ 0)

/-- `train.getnnz(axis=0)`: number of observed entries per movie (column). -/
def nnz_users_per_movie (train : Matrix (Fin U) (Fin M) ℚ) : Fin M → ℕ :=
  fun m => ((List.finRange U).filter fun u => train u m ≠ 0).length

/-- `train.getnnz(axis=1)`: number of observed entries per user (row). -/
def nnz_movies_per_user (train : Matrix (Fin U) (Fin M) ℚ) : Fin U → ℕ :=
  fun u => ((List.finRange M).filter fun m => train u m ≠ 0).length

/-! ### als.py: factor updates (lines 155-195)

`update_movie_feature` starts from `np.zeros((num_features, num_movies))`
and, for each movie with observations, solves
`(M @ M.T + nnz * lambda_I) z = M @ train[users, movie]` and writes `z` into
that movie's column; the loop is a fold whose `np.linalg.solve` failure
(`LinAlgError`) propagates, hence `Option` via `foldlM`. -/

def update_movie_feature (train : Matrix (Fin U) (Fin M) ℚ)
    (user_features : Matrix (Fin F) (Fin U) ℚ) (lambda_movie : ℚ)
    (nnz_users_per_movie : Fin M → ℕ)
    (nz_movie_userindices : List (Fin M × List (Fin U))) :
    Option (Matrix (Fin F) (Fin M) ℚ) :=
  let lambda_I : Matrix (Fin F) (Fin F) ℚ := lambda_movie • 1
  nz_movie_userindices.foldlM
    (fun updated_movie_features (mu : Fin M × List (Fin U)) =>
      let Mu : Matrix (Fin F) (Fin mu.2.length) ℚ := fun i j => user_features i (mu.2.get j)
      let V : Fin F → ℚ := Mu *ᵥ fun j => train (mu.2.get j) mu.1
      let A : Matrix (Fin F) (Fin F) ℚ := Mu * Muᵀ + (nnz_users_per_movie mu.1 : ℚ) • lambda_I
      (solveLin A V).map fun Z => updated_movie_features.updateColumn mu.1 Z)
    (0 : Matrix (Fin F) (Fin M) ℚ)

def update_user_feature (train : Matrix (Fin U) (Fin M) ℚ)
    (movie_features : Matrix (Fin F) (Fin M) ℚ) (lambda_user : ℚ)
    (nnz_movies_per_user : Fin U → ℕ)
    (nz_user_movieindices : List (Fin U × List (Fin M))) :
    Option (Matrix (Fin F) (Fin U) ℚ) :=
  let lambda_I : Matrix (Fin F) (Fin F) ℚ := lambda_user • 1
  nz_user_movieindices.foldlM
    (fun updated_user_features (um : Fin U × List (Fin M)) =>
      let Mv : Matrix (Fin F) (Fin um.2.length) ℚ := fun i j => movie_features i (um.2.get j)
      let V : Fin F → ℚ := Mv *ᵥ fun j => train um.1 (um.2.get j)
      let A : Matrix (Fin F) (Fin F) ℚ := Mv * Mvᵀ + (nnz_movies_per_user um.1 : ℚ) • lambda_I
      (solveLin A V).map fun W => updated_user_features.updateColumn um.1 W)
    (0 : Matrix (Fin F) (Fin U) ℚ)

/-! Generic lemmas about such update folds: a key not named by any group
keeps the accumulator's column, and with distinct keys the final column of a
listed key is the solved vector for its group. -/

theorem foldlM_updateColumn_frame {n : ℕ} {ι : Type}
    (sol : Fin n × List ι → Option (Fin F → ℚ)) :
    ∀ (groups : List (Fin n × List ι)) (acc W : Matrix (Fin F) (Fin n) ℚ) (m : Fin n),
      groups.foldlM (fun acc' p => (sol p).map fun z => acc'.updateColumn p.1 z) acc = some W →
      (∀ p ∈ groups, p.1 ≠ m) → ∀ i, W i m = acc i m := by
  intro groups
  induction groups with
  | nil => intro acc W m h _ i; simp only [List.foldlM_nil] at h; cases h; rfl
  | cons g gs ih =>
      intro acc W m h hne i
      rw [List.foldlM_cons] at h
      cases hsol : sol g with
      | none => rw [hsol] at h; cases h
      | some z =>
          rw [hsol] at h
          simp only [Option.map_some', Option.some_bind] at h
          have := ih (acc.updateColumn g.1 z) W m h (fun p hp => hne p (List.mem_cons_of_mem _ hp)) i
          rw [this, Matrix.updateColumn_ne (Ne.symm (hne g (List.mem_cons_self g gs)))]

theorem foldlM_updateColumn_mem {n : ℕ} {ι : Type}
    (sol : Fin n × List ι → Option (Fin F → ℚ)) :
    ∀ (groups : List (Fin n × List ι)) (acc W : Matrix (Fin F) (Fin n) ℚ)
      (p : Fin n × List ι),
      groups.foldlM (fun acc' q => (sol q).map fun z => acc'.updateColumn q.1 z) acc = some W →
      p ∈ groups → (groups.map Prod.fst).Nodup →
      ∃ z, sol p = some z ∧ ∀ i, W i p.1 = z i := by
  intro groups
  induction groups with
  | nil => intro _ _ _ _ hmem; cases hmem
  | cons g gs ih =>
      intro acc W p h hmem hnd
      rw [List.foldlM_cons] at h
      cases hsol : sol g with
      | none => rw [hsol] at h; cases h
      | some z =>
          rw [hsol] at h
          simp only [Option.map_some', Option.some_bind] at h
          rw [List.map_cons, List.nodup_cons] at hnd
          rcases List.mem_cons.mp hmem with rfl | hmem'
          · refine ⟨z, hsol, fun i => ?_⟩
            have hframe := foldlM_updateColumn_frame sol gs (acc.updateColumn p.1 z) W p.1 h
              (fun q hq hq1 => hnd.1 (hq1 ▸ List.mem_map.mpr ⟨q, hq, rfl⟩)) i
            rw [hframe, Matrix.updateColumn_self]
          · exact ih (acc.updateColumn g.1 z) W p h hmem' hnd.2

/-- Membership in the per-movie groups determines the user list: it is the
ascending list of users with an observation for that movie, and is
nonempty. -/
theorem mem_nz_col_rowindices {train : Matrix (Fin U) (Fin M) ℚ} {m : Fin M}
    {us : List (Fin U)} (h : (m, us) ∈ nz_col_rowindices train) :
    us = (List.finRange U).filter (fun u => train u m ≠ 0) ∧ us ≠ [] := by
  unfold nz_col_rowindices at h
  obtain ⟨a, -, ha⟩ := List.mem_filterMap.mp h
  by_cases he : ((List.finRange U).filter fun u => train u a ≠ 0).isEmpty
  · rw [if_pos he] at ha; cases ha
  · rw [if_neg he] at ha
    obtain ⟨rfl, rfl⟩ := Prod.mk.injEq .. ▸ Option.some.injEq .. ▸ ha
    exact ⟨rfl, by simpa [List.isEmpty_iff] using he⟩

theorem mem_nz_row_colindices {train : Matrix (Fin U) (Fin M) ℚ} {u : Fin U}
    {ms : List (Fin M)} (h : (u, ms) ∈ nz_row_colindices train) :
    ms = (List.finRange M).filter (fun m => train u m ≠ 0) ∧ ms ≠ [] := by
  unfold nz_row_colindices at h
  obtain ⟨a, -, ha⟩ := List.mem_filterMap.mp h
  by_cases he : ((List.finRange M).filter fun m => train a m ≠ 0).isEmpty
  · rw [if_pos he] at ha; cases ha
  · rw [if_neg he] at ha
    obtain ⟨rfl, rfl⟩ := Prod.mk.injEq .. ▸ Option.some.injEq .. ▸ ha
    exact ⟨rfl, by simpa [List.isEmpty_iff] using he⟩

theorem nodup_keys_nz_col_rowindices (train : Matrix (Fin U) (Fin M) ℚ) :
    ((nz_col_rowindices train).map Prod.fst).Nodup := by
  unfold nz_col_rowindices
  rw [List.map_filterMap]
  refine List.Nodup.filterMap ?_ (List.nodup_finRange M)
  intro a a' b hb hb'
  have ha : b = a := by
    by_cases hc : ((List.finRange U).filter fun u => train u a ≠ 0).isEmpty
    · rw [if_pos hc] at hb; cases hb
    · rw [if_neg hc] at hb; simpa [Option.mem_def] using hb.symm
  have ha' : b = a' := by
    by_cases hc : ((List.finRange U).filter fun u => train u a' ≠ 0).isEmpty
    · rw [if_pos hc] at hb'; cases hb'
    · rw [if_neg hc] at hb'; simpa [Option.mem_def] using hb'.symm
  exact ha ▸ ha'

theorem nodup_keys_nz_row_colindices (train : Matrix (Fin U) (Fin M) ℚ) :
    ((nz_row_colindices train).map Prod.fst).Nodup := by
  unfold nz_row_colindices
  rw [List.map_filterMap]
  refine List.Nodup.filterMap ?_ (List.nodup_finRange U)
  intro a a' b hb hb'
  have ha : b = a := by
    by_cases hc : ((List.finRange M).filter fun m => train a m ≠ 0).isEmpty
    · rw [if_pos hc] at hb; cases hb
    · rw [if_neg hc] at hb; simpa [Option.mem_def] using hb.symm
  have ha' : b = a' := by
    by_cases hc : ((List.finRange M).filter fun m => train a' m ≠ 0).isEmpty
    · rw [if_pos hc] at hb'; cases hb'
    · rw [if_neg hc] at hb'; simpa [Option.mem_def] using hb'.symm
  exact ha ▸ ha'

/-! ### als.py: init_MF, compute_error, ALS (lines 130-153, 197-239)

`init_MF` scales `np.random.rand` matrices by `weight`; the random draws are
explicit arguments.  `compute_error` accumulates the squared residuals over
the supplied pairs in exact arithmetic and divides by `len(nz)` — the Python
code raises `ZeroDivisionError` on an empty pair list, modelled as `none` —
then takes `np.sqrt`, landing in `ℝ`. -/

def init_MF (max_weight : ℚ) (rand_movie : Matrix (Fin F) (Fin M) ℚ)
    (rand_user : Matrix (Fin F) (Fin U) ℚ) :
    Matrix (Fin F) (Fin M) ℚ × Matrix (Fin F) (Fin U) ℚ :=
  (max_weight • rand_movie, max_weight • rand_user)

/-- The squared-error accumulation loop of `compute_error`. -/
def compute_mse (data : Matrix (Fin U) (Fin M) ℚ) (movie_features : Matrix (Fin F) (Fin M) ℚ)
    (user_features : Matrix (Fin F) (Fin U) ℚ) (nz : List (Fin U × Fin M)) : ℚ :=
  nz.foldl (fun mse p =>
    mse + (data p.1 p.2 - (fun f => movie_features f p.2) ⬝ᵥ fun f => user_features f p.1) ^ 2) 0

/-- `compute_error` (als.py lines 143-153): `sqrt(1.0 * mse / len(nz))`. -/
noncomputable def compute_error (data : Matrix (Fin U) (Fin M) ℚ)
    (movie_features : Matrix (Fin F) (Fin M) ℚ) (user_features : Matrix (Fin F) (Fin U) ℚ)
    (nz : List (Fin U × Fin M)) : Option ℝ :=
  if nz.length = 0 then none
  else some (Real.sqrt ((compute_mse data movie_features user_features nz : ℝ) / (nz.length : ℝ)))

/-- The mutable state of one `ALS` run.  `error_list` stores the RMSE history
with the most recent value first (Python appends at the end and reads
`error_list[-1]`, `error_list[-2]`). -/
structure ALSState (U M F : ℕ) where
  movie_features : Matrix (Fin F) (Fin M) ℚ
  user_features : Matrix (Fin F) (Fin U) ℚ
  error_list : List ℝ

/-- One iteration of the `while` loop in `ALS`: movie update, then user
update using the fresh movie factors, then training RMSE appended to the
history.  Any numeric failure propagates. -/
noncomputable def ALS_round (train : Matrix (Fin U) (Fin M) ℚ) (lambda_movie lambda_user : ℚ)
    (st : ALSState U M F) : Option (ALSState U M F) := do
  let movie_features ← update_movie_feature train st.user_features lambda_movie
    (nnz_users_per_movie train) (nz_col_rowindices train)
  let user_features ← update_user_feature train movie_features lambda_user
    (nnz_movies_per_user train) (nz_row_colindices train)
  let train_rmse ← compute_error train movie_features user_features (nonzeroPairs train)
  some ⟨movie_features, user_features, train_rmse :: st.error_list⟩

/-- The convergence quantity `change = np.fabs(error_list[-1] - error_list[-2])`. -/
noncomputable def ALS_change (st : ALSState U M F) : ℝ :=
  |st.error_list.getD 0 0 - st.error_list.getD 1 0|

/-- The `while it < iterations` loop with the `change < stop_criterion`
break, by recursion on the remaining iteration budget. -/
noncomputable def ALS_loop (train : Matrix (Fin U) (Fin M) ℚ) (lambda_movie lambda_user : ℚ) :
    ℕ → ALSState U M F → Option (ALSState U M F)
  | 0, st => some st
  | it + 1, st =>
      match ALS_round train lambda_movie lambda_user st with
      | none => none
      | some st' =>
          if ALS_change st' < 1 / 100000 then some st'
          else ALS_loop train lambda_movie lambda_user it st'

theorem ALS_loop_succ (train : Matrix (Fin U) (Fin M) ℚ) (lambda_movie lambda_user : ℚ)
    (it : ℕ) (st : ALSState U M F) :
    ALS_loop train lambda_movie lambda_user (it + 1) st =
      match ALS_round train lambda_movie lambda_user st with
      | none => none
      | some st' =>
          if ALS_change st' < 1 / 100000 then some st'
          else ALS_loop train lambda_movie lambda_user it st' := rfl

/-- `ALS` (als.py lines 197-239).  `num_features` is the type index `F`; the
`np.random.rand` draws of `init_MF` are the explicit `rand_movie`,
`rand_user` arguments; `iterations` defaults to 50 in Python. -/
noncomputable def ALS (train : Matrix (Fin U) (Fin M) ℚ)
    (lambda_movie lambda_user max_weight : ℚ) (iterations : ℕ)
    (rand_movie : Matrix (Fin F) (Fin M) ℚ) (rand_user : Matrix (Fin F) (Fin U) ℚ) :
    Option (Matrix (Fin F) (Fin U) ℚ × Matrix (Fin F) (Fin M) ℚ) :=
  (ALS_loop train lambda_movie lambda_user iterations
      ⟨(init_MF max_weight rand_movie rand_user).1, (init_MF max_weight rand_movie rand_user).2,
        [0, 0]⟩).map
    fun st => (st.user_features, st.movie_features)

/-- Pure `n`-fold iteration of the loop body, with no stopping rule; used to
state what `ALS_loop` computes. -/
noncomputable def ALS_rounds (train : Matrix (Fin U) (Fin M) ℚ) (lambda_movie lambda_user : ℚ) :
    ℕ → ALSState U M F → Option (ALSState U M F)
  | 0, st => some st
  | n + 1, st =>
      match ALS_round train lambda_movie lambda_user st with
      | none => none
      | some st' => ALS_rounds train lambda_movie lambda_user n st'

/-- What `ALS_loop` computes: either a numeric error propagates, or the
result is the pure `n`-fold iterate for the least `n` at which the budget is
exhausted or the convergence test first fires. -/
theorem ALS_loop_spec (train : Matrix (Fin U) (Fin M) ℚ) (lambda_movie lambda_user : ℚ) :
    ∀ (fuel : ℕ) (st0 : ALSState U M F),
      ALS_loop train lambda_movie lambda_user fuel st0 = none ∨
      ∃ n ≤ fuel, ∃ st : ALSState U M F,
        ALS_rounds train lambda_movie lambda_user n st0 = some st ∧
        ALS_loop train lambda_movie lambda_user fuel st0 = some st ∧
        (n < fuel → ALS_change st < 1 / 100000) ∧
        ∀ k, 0 < k → k < n → ∀ st' : ALSState U M F,
          ALS_rounds train lambda_movie lambda_user k st0 = some st' →
          ¬ ALS_change st' < 1 / 100000 := by
  intro fuel
  induction fuel with
  | zero =>
      intro st0
      exact Or.inr ⟨0, le_refl 0, st0, rfl, rfl, fun h => absurd h (by omega),
        fun k hk hk' => by omega⟩
  | succ fuel ih =>
      intro st0
      cases hr : ALS_round train lambda_movie lambda_user st0 with
      | none =>
          left
          show (match ALS_round train lambda_movie lambda_user st0 with
            | none => none
            | some st' => if ALS_change st' < 1 / 100000 then some st'
                else ALS_loop train lambda_movie lambda_user fuel st') = none
          rw [hr]
      | some st1 =>
          have hloop : ALS_loop train lambda_movie lambda_user (fuel + 1) st0 =
              if ALS_change st1 < 1 / 100000 then some st1
              else ALS_loop train lambda_movie lambda_user fuel st1 := by
            show (match ALS_round train lambda_movie lambda_user st0 with
              | none => none
              | some st' => if ALS_change st' < 1 / 100000 then some st'
                  else ALS_loop train lambda_movie lambda_user fuel st') = _
            rw [hr]
          have hrounds1 : ALS_rounds train lambda_movie lambda_user 1 st0 = some st1 := by
            show (match ALS_round train lambda_movie lambda_user st0 with
              | none => none
              | some st' => ALS_rounds train lambda_movie lambda_user 0 st') = some st1
            rw [hr]
            rfl
          by_cases hc : ALS_change st1 < 1 / 100000
          · right
            refine ⟨1, by omega, st1, hrounds1, by rw [hloop, if_pos hc], fun _ => hc,
              fun k hk hk' => by omega⟩
          · rw [if_neg hc] at hloop
            rcases ih st1 with hnone | ⟨n, hn, st, hst, hst2, hst3, hst4⟩
            · left; rw [hloop, hnone]
            · right
              refine ⟨n + 1, by omega, st, ?_, by rw [hloop, hst2], fun h => hst3 (by omega), ?_⟩
              · show (match ALS_round train lambda_movie lambda_user st0 with
                  | none => none
                  | some st' => ALS_rounds train lambda_movie lambda_user n st') = some st
                rw [hr]
                exact hst
              · intro k hk hk' st' hst'
                match k, hk with
                | 1, _ =>
                    rw [hrounds1] at hst'
                    cases hst'
                    exact hc
                | j + 2, _ =>
                    have hj : ALS_rounds train lambda_movie lambda_user (j + 2) st0 =
                        ALS_rounds train lambda_movie lambda_user (j + 1) st1 := by
                      show (match ALS_round train lambda_movie lambda_user st0 with
                        | none => none
                        | some st' => ALS_rounds train lambda_movie lambda_user (j + 1) st') = _
                      rw [hr]
                    rw [hj] at hst'
                    exact hst4 (j + 1) (by omega) (by omega) st' hst'

/-! ### als.py: get_number_per and split_data (lines 77-128)

`split_data` keeps the rows/columns whose observation counts (passed in as
arrays) reach `min_num_ratings`, forms the `valid_ratings` submatrix, and
then, per movie column, draws `int(len(row) * p_test)` row indices **with
replacement** (`np.random.choice`) from the observed rows into `selects`;
`residual = set(row) - set(selects)` goes to `train`, and — only when
`p_test > 0` — the selected rows go to `test`.  The random draws are the
explicit `selects` argument; `np.random.choice(row, ...)` only ever returns
members of `row`, but the theorems below hold for arbitrary draw lists
because an index outside the observed rows would copy a zero entry, leaving
the matrix unchanged. -/

/-- Number of observed entries of a matrix (`.nnz`). -/
def nnz {n m : ℕ} (A : Matrix (Fin n) (Fin m) ℚ) : ℕ :=
  (Finset.univ.filter fun p : Fin n × Fin m => A p.1 p.2 ≠ 0).card

/-- The observed rows of one column (`valid_ratings[:, movie].nonzero()`). -/
def nzRows {n m : ℕ} (A : Matrix (Fin n) (Fin m) ℚ) (j : Fin m) : List (Fin n) :=
  (List.finRange n).filter fun i => A i j ≠ 0

/-- `get_number_per` (als.py lines 77-82): per-movie and per-user counts. -/
def get_number_per (ratings : Matrix (Fin U) (Fin M) ℚ) : (Fin M → ℕ) × (Fin U → ℕ) :=
  (fun m => ((List.finRange U).filter fun u => ratings u m ≠ 0).length,
   fun u => ((List.finRange M).filter fun m => ratings u m ≠ 0).length)

/-- `valid_users = np.where(num_movies_per_user >= min_num_ratings)[0]`. -/
def valid_users (num_movies_per_user : Fin U → ℕ) (min_num_ratings : ℕ) : List (Fin U) :=
  (List.finRange U).filter fun u => min_num_ratings ≤ num_movies_per_user u

/-- `valid_movies = np.where(num_users_per_movie >= min_num_ratings)[0]`. -/
def valid_movies (num_users_per_movie : Fin M → ℕ) (min_num_ratings : ℕ) : List (Fin M) :=
  (List.finRange M).filter fun m => min_num_ratings ≤ num_users_per_movie m

/-- `valid_ratings = ratings[valid_users, :][:, valid_movies]`. -/
def valid_ratings (ratings : Matrix (Fin U) (Fin M) ℚ) (vu : List (Fin U)) (vm : List (Fin M)) :
    Matrix (Fin vu.length) (Fin vm.length) ℚ :=
  fun i j => ratings (vu.get i) (vm.get j)

/-- `split_data` (als.py lines 84-128), returning
`(valid_ratings, train, test)`. -/
def split_data (ratings : Matrix (Fin U) (Fin M) ℚ)
    (num_users_per_movie : Fin M → ℕ) (num_movies_per_user : Fin U → ℕ)
    (min_num_ratings : ℕ) (p_test : ℚ)
    (selects : Fin (valid_movies num_users_per_movie min_num_ratings).length →
      List (Fin (valid_users num_movies_per_user min_num_ratings).length)) :
    (Matrix (Fin (valid_users num_movies_per_user min_num_ratings).length)
       (Fin (valid_movies num_users_per_movie min_num_ratings).length) ℚ) ×
    (Matrix (Fin (valid_users num_movies_per_user min_num_ratings).length)
       (Fin (valid_movies num_users_per_movie min_num_ratings).length) ℚ) ×
    (Matrix (Fin (valid_users num_movies_per_user min_num_ratings).length)
       (Fin (valid_movies num_users_per_movie min_num_ratings).length) ℚ) :=
  let vr := valid_ratings ratings (valid_users num_movies_per_user min_num_ratings)
    (valid_movies num_users_per_movie min_num_ratings)
  (vr,
   fun i m => if i ∈ nzRows vr m ∧ i ∉ selects m then vr i m else 0,
   fun i m => if 0 < p_test ∧ i ∈ selects m then vr i m else 0)

/-! ### als.py: split_for_cv (lines 304-332)

`split_for_cv` builds `k_fold` train/test pairs from the training matrix by
the same per-column sampling; unlike `split_data` there is no `p_test > 0`
guard around the test assignment.  `p_test` only enters through the sizes of
the random draws, which are the explicit `selects` argument here. -/
def split_for_cv (train : Matrix (Fin U) (Fin M) ℚ) (p_test : ℚ) (k_fold : ℕ)
    (selects : ℕ → Fin M → List (Fin U)) :
    List (Matrix (Fin U) (Fin M) ℚ) × List (Matrix (Fin U) (Fin M) ℚ) :=
  ((List.range k_fold).map fun k =>
      fun i m => if i ∈ nzRows train m ∧ i ∉ selects k m then train i m else 0,
   (List.range k_fold).map fun k =>
      fun i m => if i ∈ selects k m then train i m else 0)

/-! ### als.py: cv_ALS_random_search (lines 241-302)

The random search draws 60 values from each hyper-parameter range
(`np.random.choice`); those drawn lists are explicit arguments.  For each
candidate it runs the 5 cross-validation folds produced by one initial call
`split_for_cv(train, p_test=0.2)`, trains `ALS` (50 iterations, fresh random
factor initialisation per call — the `rand` argument, indexed by candidate
and fold), evaluates RMSE on the fold's held-out part and averages.

Mirroring the Python text faithfully: the "improved" branch writes the new
best `lambda_user` into the misspelled variable `bset_lambda_user`, which is
also the variable the function returns; the correctly spelled
`best_lambda_user = -1` is never read again.  If no candidate ever improves,
the final `print` reads the unbound `bset_lambda_user` and raises
`NameError`, modelled by `bset_lambda_user : Option ℚ` starting at `none`
and the final `match` returning `none`.  There is no `try`/`except`
anywhere: any exception from `ALS` or `compute_error` propagates through
`foldlM` and aborts the whole search. -/
structure CVState where
  best_weight : ℚ
  best_lambda_user : ℚ
  best_lambda_movie : ℚ
  best_num_feature : ℤ
  best_rmse : ℝ
  bset_lambda_user : Option ℚ

/-- The inner 5-fold loop for one candidate: train `ALS` on each fold, score
on the fold's test part, average with `np.mean` (sum divided by length). -/
noncomputable def cv_fold_eval (num_features : ℕ) (weight lambda_movie lambda_user : ℚ)
    (rand : ℕ → Matrix (Fin num_features) (Fin M) ℚ × Matrix (Fin num_features) (Fin U) ℚ)
    (acc : List ℝ)
    (ke : ℕ × Matrix (Fin U) (Fin M) ℚ × Matrix (Fin U) (Fin M) ℚ) : Option (List ℝ) := do
  let (user_features, movie_features) ←
    ALS ke.2.1 lambda_movie lambda_user weight 50 (rand ke.1).1 (rand ke.1).2
  let test_tr_rmse ← compute_error ke.2.2 movie_features user_features (nonzeroPairs ke.2.2)
  some (acc ++ [test_tr_rmse])

noncomputable def cv_candidate (train_tr_list test_tr_list : List (Matrix (Fin U) (Fin M) ℚ))
    (num_features : ℕ) (weight lambda_movie lambda_user : ℚ)
    (rand : ℕ → Matrix (Fin num_features) (Fin M) ℚ × Matrix (Fin num_features) (Fin U) ℚ) :
    Option ℝ := do
  let rmse_list ← (train_tr_list.zip test_tr_list).enum.foldlM
    (cv_fold_eval num_features weight lambda_movie lambda_user rand) []
  some (rmse_list.sum / (rmse_list.length : ℝ))

/-- The body of the candidate loop: evaluate the candidate, and on strict
improvement record its parameters (with `lambda_user` going into the
misspelled `bset_lambda_user`). -/
noncomputable def cv_step (train_tr_list test_tr_list : List (Matrix (Fin U) (Fin M) ℚ))
    (rand : ℕ → ℕ → (f : ℕ) → Matrix (Fin f) (Fin M) ℚ × Matrix (Fin f) (Fin U) ℚ)
    (st : CVState) (c : ℕ × ℕ × ℚ × ℚ × ℚ) : Option CVState := do
  let test_rmse ← cv_candidate train_tr_list test_tr_list c.2.1 c.2.2.1 c.2.2.2.1 c.2.2.2.2
    (fun k => rand c.1 k c.2.1)
  if test_rmse < st.best_rmse then
    some ⟨c.2.2.1, st.best_lambda_user, c.2.2.2.1, (c.2.1 : ℤ), test_rmse, some c.2.2.2.2⟩
  else
    some st

/-- `cv_ALS_random_search` (als.py lines 241-302).  The four candidate lists
are the 60-element random draws; `cv_selects` are the random draws consumed
by the single `split_for_cv` call; `rand` supplies `init_MF`'s draws per
candidate and fold. -/
noncomputable def cv_ALS_random_search (train : Matrix (Fin U) (Fin M) ℚ)
    (nb_features : List ℕ) (weights lambda_movies lambda_users : List ℚ)
    (cv_selects : ℕ → Fin M → List (Fin U))
    (rand : ℕ → ℕ → (f : ℕ) → Matrix (Fin f) (Fin M) ℚ × Matrix (Fin f) (Fin U) ℚ) :
    Option (ℤ × ℚ × ℚ × ℚ) := do
  let folds := split_for_cv train (1 / 5) 5 cv_selects
  let final ← (nb_features.zip (weights.zip (lambda_movies.zip lambda_users))).enum.foldlM
    (cv_step folds.1 folds.2 rand) ⟨-1, -1, -1, -1, 100, none⟩
  match final.bset_lambda_user with
  | none => none
  | some lu => some (final.best_num_feature, final.best_weight, final.best_lambda_movie, lu)

/-- The candidate selection loop over pre-evaluated candidate scores; used to
state that every candidate is scored against the same folds. -/
noncomputable def search_best (pairs : List ((ℕ × ℕ × ℚ × ℚ × ℚ) × Option ℝ))
    (st0 : CVState) : Option CVState :=
  pairs.foldlM
    (fun st pr => do
      let test_rmse ← pr.2
      if test_rmse < st.best_rmse then
        some ⟨pr.1.2.2.1, st.best_lambda_user, pr.1.2.2.2.1, (pr.1.2.1 : ℤ), test_rmse,
          some pr.1.2.2.2.2⟩
      else
        some st)
    st0

/-! ### stack.py: stack, evaluate_stacking, optimize (lines 189-226)

The predictions table (built by `load_predictions` from CSV files — external
I/O) is passed in directly: its column-name list (including `User` and
`Movie`), one prediction column per model name, and per-row `(User, Movie)`
keys.  `models` is the ordered model catalogue from `load_models`:
family name to list of model names. -/
structure PredTable (R : ℕ) where
  columns : List String
  col : String → Fin R → ℚ
  keys : Fin R → ℕ × ℕ

/-- The argument record of the `sco.minimize(...)` call in `optimize`; the
solver itself is external (scipy).  `bounds` and `constraints` are the
(absent) optional arguments of the call. -/
structure MinimizeCall (R : ℕ) where
  objective : List ℚ → Option ℝ
  x0 : List ℚ
  method : String
  maxiter : ℕ
  bounds : Option (List (ℚ × ℚ))
  constraints : List Unit

/-- `stack` (stack.py lines 215-226): row-aligned weighted sum of the model
prediction columns, iterating the model catalogue with a running index into
`weights`.  `weights[idx]` raises `IndexError` when `idx` is out of range,
modelled as `none`. -/
def stack {R : ℕ} (weights : List ℚ) (predictions : PredTable R)
    (models : List (String × List String)) : Option (Fin R → ℚ) :=
  (models.foldlM
    (fun (acc : (Fin R → ℚ) × ℕ) (fam : String × List String) =>
      fam.2.foldlM
        (fun (acc2 : (Fin R → ℚ) × ℕ) name =>
          match weights.get? acc2.2 with
          | none => none
          | some w => some (fun r => acc2.1 r + w * predictions.col name r, acc2.2 + 1))
        acc)
    (fun _ => 0, 0)).map Prod.fst

/-- Modelled from the spec: `compute_rmse` lives in `helpers.py`, which is
not among the provided sources; per the spec it is the RMSE between the
blended prediction column and the ground-truth ratings over the (row-aligned)
merged table. -/
noncomputable def compute_rmse {R : ℕ} (pred truth : Fin R → ℚ) : ℝ :=
  Real.sqrt (((Finset.univ.sum fun r => (pred r - truth r) ^ 2 : ℚ) : ℝ) / (R : ℝ))

/-- `evaluate_stacking` (stack.py lines 208-213); the pandas inner merge of
the `(User, Movie)` key table with the ground truth is modelled by passing
the row-aligned ground-truth column directly. -/
noncomputable def evaluate_stacking {R : ℕ} (weights : List ℚ)
    (models : List (String × List String)) (predictions : PredTable R)
    (ground_truth : Fin R → ℚ) : Option ℝ :=
  (stack weights predictions models).map fun pred => compute_rmse pred ground_truth

/-- `optimize` (stack.py lines 189-206): uniform initial weights, one weight
per prediction column other than `User` and `Movie`, then
`sco.minimize(evaluate_stacking, w0, method='SLSQP', args=...,
options={'maxiter': 1000, 'disp': True})` with no `bounds` and no
`constraints` argument. -/
noncomputable def optimize {R : ℕ} (models : List (String × List String))
    (ground_truth : Fin R → ℚ) (predictions : PredTable R) : MinimizeCall R :=
  ⟨fun w => evaluate_stacking w models predictions ground_truth,
   List.replicate (predictions.columns.length - 2)
     (1 / ((predictions.columns.length - 2 : ℕ) : ℚ)),
   "SLSQP", 1000, none, []⟩

/-! ## Claims -/

/-! ### C4: split_data disjointness and nnz bound -/

theorem foldl_add_eq_sum {α : Type} (g : α → ℚ) :
    ∀ (l : List α) (a : ℚ), l.foldl (fun acc x => acc + g x) a = a + (l.map g).sum := by
  intro l
  induction l with
  | nil => intro a; simp
  | cons x xs ih => intro a; simp [ih, add_assoc]

theorem nnz_valid_le {U M : ℕ} (ratings : Matrix (Fin U) (Fin M) ℚ)
    (vu : List (Fin U)) (vm : List (Fin M)) (hvu : vu.Nodup) (hvm : vm.Nodup) :
    nnz (valid_ratings ratings vu vm) ≤ nnz ratings := by
  unfold nnz
  refine Finset.card_le_card_of_injOn
    (fun p => (vu.get p.1, vm.get p.2)) (fun p hp => ?_) (fun p hp q hq hpq => ?_)
  · simp only [Finset.mem_filter, Finset.mem_univ, true_and] at hp ⊢
    exact hp
  · simp only [Prod.mk.injEq] at hpq
    exact Prod.ext (hvu.get_inj_iff.mp hpq.1) (hvm.get_inj_iff.mp hpq.2)

/-- C4: for every ratings matrix, count arrays, minimum-observation
threshold, test fraction and random draw lists, `split_data` produces train
and test matrices with disjoint observed-entry sets, and
`train.nnz + test.nnz ≤ ratings.nnz`.  (In fact the two parts exactly
partition the observed entries of the `valid_ratings` submatrix — duplicate
draws do not shrink the total, because `residual` is the complement of the
*set* of draws — but the claimed inequality holds; it can be strict only
through the `min_num_ratings` filtering step.) -/
theorem split_core_disjoint_nnz {n m : ℕ} (V : Matrix (Fin n) (Fin m) ℚ) (p_test : ℚ)
    (selects : Fin m → List (Fin n)) :
    (∀ i j, ¬((if i ∈ nzRows V j ∧ i ∉ selects j then V i j else 0) ≠ 0 ∧
      (if 0 < p_test ∧ i ∈ selects j then V i j else 0) ≠ 0)) ∧
    nnz (fun i j => if i ∈ nzRows V j ∧ i ∉ selects j then V i j else 0) +
      nnz (fun i j => if 0 < p_test ∧ i ∈ selects j then V i j else 0) ≤ nnz V := by
  have hdisj : ∀ i j, ¬((if i ∈ nzRows V j ∧ i ∉ selects j then V i j else 0) ≠ 0 ∧
      (if 0 < p_test ∧ i ∈ selects j then V i j else 0) ≠ 0) := by
    intro i j ⟨h1, h2⟩
    by_cases hc1 : i ∈ nzRows V j ∧ i ∉ selects j
    · by_cases hc2 : 0 < p_test ∧ i ∈ selects j
      · exact hc1.2 hc2.2
      · rw [if_neg hc2] at h2; exact h2 rfl
    · rw [if_neg hc1] at h1; exact h1 rfl
  refine ⟨hdisj, ?_⟩
  have hsub1 : ∀ i j, (if i ∈ nzRows V j ∧ i ∉ selects j then V i j else 0) ≠ 0 → V i j ≠ 0 := by
    intro i j h
    by_cases hc : i ∈ nzRows V j ∧ i ∉ selects j
    · rwa [if_pos hc] at h
    · rw [if_neg hc] at h; exact absurd rfl h
  have hsub2 : ∀ i j, (if 0 < p_test ∧ i ∈ selects j then V i j else 0) ≠ 0 → V i j ≠ 0 := by
    intro i j h
    by_cases hc : 0 < p_test ∧ i ∈ selects j
    · rwa [if_pos hc] at h
    · rw [if_neg hc] at h; exact absurd rfl h
  unfold nnz
  rw [← Finset.card_union_of_disjoint]
  · refine Finset.card_le_card ?_
    intro p hp
    simp only [Finset.mem_union, Finset.mem_filter, Finset.mem_univ, true_and] at hp ⊢
    rcases hp with h | h
    · exact hsub1 p.1 p.2 h
    · exact hsub2 p.1 p.2 h
  · rw [Finset.disjoint_filter]
    intro p _ h1 h2
    exact hdisj p.1 p.2 ⟨h1, h2⟩

/-- C4: for every ratings matrix, count arrays, minimum-observation
threshold, test fraction and random draw lists, `split_data` produces train
and test matrices with disjoint observed-entry sets, and
`train.nnz + test.nnz ≤ ratings.nnz`.  (In fact the two parts exactly
partition the observed entries of the `valid_ratings` submatrix — duplicate
draws do not shrink the total, because `residual` is the complement of the
*set* of draws — but the claimed inequality holds; it can be strict only
through the `min_num_ratings` filtering step.) -/
theorem C4_split_data_disjoint_nnz_bound {U M : ℕ} (ratings : Matrix (Fin U) (Fin M) ℚ)
    (num_users_per_movie : Fin M → ℕ) (num_movies_per_user : Fin U → ℕ)
    (min_num_ratings : ℕ) (p_test : ℚ)
    (selects : Fin (valid_movies num_users_per_movie min_num_ratings).length →
      List (Fin (valid_users num_movies_per_user min_num_ratings).length)) :
    (∀ i m, ¬((split_data ratings num_users_per_movie num_movies_per_user
        min_num_ratings p_test selects).2.1 i m ≠ 0 ∧
      (split_data ratings num_users_per_movie num_movies_per_user
        min_num_ratings p_test selects).2.2 i m ≠ 0)) ∧
    nnz (split_data ratings num_users_per_movie num_movies_per_user
        min_num_ratings p_test selects).2.1 +
      nnz (split_data ratings num_users_per_movie num_movies_per_user
        min_num_ratings p_test selects).2.2 ≤ nnz ratings := by
  have hcore := split_core_disjoint_nnz
    (valid_ratings ratings (valid_users num_movies_per_user min_num_ratings)
      (valid_movies num_users_per_movie min_num_ratings)) p_test selects
  have hvalid := nnz_valid_le ratings (valid_users num_movies_per_user min_num_ratings)
    (valid_movies num_users_per_movie min_num_ratings)
    ((List.nodup_finRange U).filter _) ((List.nodup_finRange M).filter _)
  exact ⟨hcore.1, le_trans hcore.2 hvalid⟩


/-! ### C7: compute_error -/

theorem compute_mse_eq_sum {U M F : ℕ} (data : Matrix (Fin U) (Fin M) ℚ)
    (movie_features : Matrix (Fin F) (Fin M) ℚ) (user_features : Matrix (Fin F) (Fin U) ℚ)
    (nz : List (Fin U × Fin M)) :
    compute_mse data movie_features user_features nz =
      (nz.map fun p =>
        (data p.1 p.2 - (fun f => movie_features f p.2) ⬝ᵥ fun f => user_features f p.1) ^ 2).sum := by
  unfold compute_mse
  rw [foldl_add_eq_sum, zero_add]

/-- C7: `compute_error` divides the accumulated squared error by `len(nz)`,
failing (ZeroDivisionError, modelled `none`) exactly when the pair list is
empty; on a non-empty list it returns the square root of the mean, over
exactly the supplied `(row, col)` pairs, of
`(data[row, col] - movie_features[:, col] · user_features[:, row])²`. -/
theorem C7_compute_error_spec {U M F : ℕ} (data : Matrix (Fin U) (Fin M) ℚ)
    (movie_features : Matrix (Fin F) (Fin M) ℚ) (user_features : Matrix (Fin F) (Fin U) ℚ)
    (nz : List (Fin U × Fin M)) :
    (compute_error data movie_features user_features nz = none ↔ nz = []) ∧
    (nz ≠ [] → compute_error data movie_features user_features nz =
      some (Real.sqrt
        ((((nz.map fun p =>
            (data p.1 p.2 - (fun f => movie_features f p.2) ⬝ᵥ fun f => user_features f p.1) ^ 2).sum
           : ℚ) : ℝ) / (nz.length : ℝ)))) := by
  constructor
  · constructor
    · intro h
      unfold compute_error at h
      by_cases hl : nz.length = 0
      · exact List.length_eq_zero.mp hl
      · rw [if_neg hl] at h; cases h
    · intro h
      subst h
      unfold compute_error
      rfl
  · intro hne
    unfold compute_error
    rw [if_neg (by simpa [List.length_eq_zero] using hne), compute_mse_eq_sum]

/-- Witness for C7 at a concrete input: one supplied pair, rating 3,
prediction 1·2. -/
theorem C7_witness :
    ([((0 : Fin 1), (0 : Fin 1))] ≠ ([] : List (Fin 1 × Fin 1))) ∧
    compute_error !![(3 : ℚ)] !![1] !![2] [(0, 0)] =
      some (Real.sqrt
        (((([((0 : Fin 1), (0 : Fin 1))].map fun p =>
            (!![(3 : ℚ)] p.1 p.2 -
              (fun f => !![(1 : ℚ)] f p.2) ⬝ᵥ fun f => !![(2 : ℚ)] f p.1) ^ 2).sum : ℚ) : ℝ) /
          (([((0 : Fin 1), (0 : Fin 1))].length : ℕ) : ℝ))) :=
  ⟨by decide,
   (C7_compute_error_spec !![(3 : ℚ)] !![1] !![2] [(0, 0)]).2 (by decide)⟩

/-! ### C1: the factor updates solve the regularized normal equations -/

/-- C1: for every movie `m` with at least one observed rating (i.e. listed in
the per-movie index groups with its user list `us`), a successful movie
update step writes into column `m` the solution `z` of
`(U_m U_mᵀ + n_m·λ_movie·I) z = U_m r_m`, where `U_m` collects the factor
columns of the `k` users who rated `m`, `r_m` their ratings, and
`n_m = k` is the per-movie observation count (`us.length` equals
`nnz_users_per_movie`); the user update is symmetric with `λ_user` and
per-user counts. -/
theorem C1_update_solves_normal_equation :
    (∀ (U M F : ℕ) (train : Matrix (Fin U) (Fin M) ℚ)
       (user_features : Matrix (Fin F) (Fin U) ℚ) (lambda_movie : ℚ)
       (m : Fin M) (us : List (Fin U)) (W : Matrix (Fin F) (Fin M) ℚ),
       (m, us) ∈ nz_col_rowindices train →
       update_movie_feature train user_features lambda_movie (nnz_users_per_movie train)
         (nz_col_rowindices train) = some W →
       us.length = nnz_users_per_movie train m ∧
       ((Matrix.of fun i j => user_features i (us.get j) : Matrix (Fin F) (Fin us.length) ℚ) *
           (Matrix.of fun i j => user_features i (us.get j) : Matrix (Fin F) (Fin us.length) ℚ)ᵀ +
           ((nnz_users_per_movie train m : ℚ) * lambda_movie) • 1) *ᵥ (fun i => W i m) =
         (Matrix.of fun i j => user_features i (us.get j) : Matrix (Fin F) (Fin us.length) ℚ) *ᵥ
           fun j => train (us.get j) m) ∧
    (∀ (U M F : ℕ) (train : Matrix (Fin U) (Fin M) ℚ)
       (movie_features : Matrix (Fin F) (Fin M) ℚ) (lambda_user : ℚ)
       (u : Fin U) (ms : List (Fin M)) (W : Matrix (Fin F) (Fin U) ℚ),
       (u, ms) ∈ nz_row_colindices train →
       update_user_feature train movie_features lambda_user (nnz_movies_per_user train)
         (nz_row_colindices train) = some W →
       ms.length = nnz_movies_per_user train u ∧
       ((Matrix.of fun i j => movie_features i (ms.get j) : Matrix (Fin F) (Fin ms.length) ℚ) *
           (Matrix.of fun i j => movie_features i (ms.get j) : Matrix (Fin F) (Fin ms.length) ℚ)ᵀ +
           ((nnz_movies_per_user train u : ℚ) * lambda_user) • 1) *ᵥ (fun i => W i u) =
         (Matrix.of fun i j => movie_features i (ms.get j) : Matrix (Fin F) (Fin ms.length) ℚ) *ᵥ
           fun j => train u (ms.get j)) := by
  constructor
  · intro U M F train user_features lambda_movie m us W hmem hupd
    have hlen : us.length = nnz_users_per_movie train m := by
      rw [(mem_nz_col_rowindices hmem).1]; rfl
    refine ⟨hlen, ?_⟩
    obtain ⟨z, hz, hcol⟩ := foldlM_updateColumn_mem
      (fun mu : Fin M × List (Fin U) => solveLin
        ((Matrix.of fun i j => user_features i (mu.2.get j) : Matrix (Fin F) (Fin mu.2.length) ℚ) *
            (Matrix.of fun i j => user_features i (mu.2.get j) : Matrix (Fin F) (Fin mu.2.length) ℚ)ᵀ +
          (nnz_users_per_movie train mu.1 : ℚ) • (lambda_movie • 1))
        ((Matrix.of fun i j => user_features i (mu.2.get j) : Matrix (Fin F) (Fin mu.2.length) ℚ) *ᵥ
          fun j => train (mu.2.get j) mu.1))
      (nz_col_rowindices train) 0 W (m, us) hupd hmem (nodup_keys_nz_col_rowindices train)
    rw [show (fun i => W i m) = z from funext hcol,
      show ((nnz_users_per_movie train m : ℚ) * lambda_movie) • (1 : Matrix (Fin F) (Fin F) ℚ) =
        (nnz_users_per_movie train m : ℚ) • (lambda_movie • 1) from (smul_smul _ _ _).symm]
    exact solveLin_correct hz
  · intro U M F train movie_features lambda_user u ms W hmem hupd
    have hlen : ms.length = nnz_movies_per_user train u := by
      rw [(mem_nz_row_colindices hmem).1]; rfl
    refine ⟨hlen, ?_⟩
    obtain ⟨z, hz, hcol⟩ := foldlM_updateColumn_mem
      (fun um : Fin U × List (Fin M) => solveLin
        ((Matrix.of fun i j => movie_features i (um.2.get j) : Matrix (Fin F) (Fin um.2.length) ℚ) *
            (Matrix.of fun i j => movie_features i (um.2.get j) : Matrix (Fin F) (Fin um.2.length) ℚ)ᵀ +
          (nnz_movies_per_user train um.1 : ℚ) • (lambda_user • 1))
        ((Matrix.of fun i j => movie_features i (um.2.get j) : Matrix (Fin F) (Fin um.2.length) ℚ) *ᵥ
          fun j => train um.1 (um.2.get j)))
      (nz_row_colindices train) 0 W (u, ms) hupd hmem (nodup_keys_nz_row_colindices train)
    rw [show (fun i => W i u) = z from funext hcol,
      show ((nnz_movies_per_user train u : ℚ) * lambda_user) • (1 : Matrix (Fin F) (Fin F) ℚ) =
        (nnz_movies_per_user train u : ℚ) • (lambda_user • 1) from (smul_smul _ _ _).symm]
    exact solveLin_correct hz

/-- Concrete evaluation of a movie update for the C1 witness: one user, one
movie, rating 5, user factor 1, `λ_movie = 1/10`: the solved system is
`(1 + 1·(1/10)) z = 5`, so `z = 50/11`. -/
theorem update_example_eval_C1 :
    update_movie_feature !![(5 : ℚ)] !![1] (1 / 10) (nnz_users_per_movie !![(5 : ℚ)])
      (nz_col_rowindices !![(5 : ℚ)]) = some !![50 / 11] := by
  have hg : nz_col_rowindices !![(5 : ℚ)] = [(0, [0])] := by decide
  have hn : nnz_users_per_movie !![(5 : ℚ)] 0 = 1 := by decide
  unfold update_movie_feature
  rw [hg]
  simp only [List.foldlM_cons, List.foldlM_nil, solveLin_one]
  norm_num [hn, Matrix.mul_apply, Matrix.mulVec, Matrix.dotProduct, Matrix.smul_apply,
    Matrix.one_apply, Matrix.add_apply]
  funext i j
  fin_cases i <;> fin_cases j <;>
    simp [Matrix.updateColumn_apply, Matrix.smul_apply, Matrix.mulVec, Matrix.dotProduct] <;>
    norm_num

/-- Witness for C1: one user, one movie, rating 5, user factor 1,
`λ_movie = 1/10`, so the normal equation is `(1 + 1·(1/10)) z = 5` with
solution `z = 50/11`. -/
theorem C1_witness :
    ((0 : Fin 1), [(0 : Fin 1)]) ∈ nz_col_rowindices !![(5 : ℚ)] ∧
    update_movie_feature !![(5 : ℚ)] !![1] (1 / 10) (nnz_users_per_movie !![(5 : ℚ)])
      (nz_col_rowindices !![(5 : ℚ)]) = some !![50 / 11] ∧
    ([(0 : Fin 1)].length = nnz_users_per_movie !![(5 : ℚ)] 0 ∧
     ((Matrix.of fun i j => !![(1 : ℚ)] i ([(0 : Fin 1)].get j) :
         Matrix (Fin 1) (Fin [(0 : Fin 1)].length) ℚ) *
         (Matrix.of fun i j => !![(1 : ℚ)] i ([(0 : Fin 1)].get j) :
           Matrix (Fin 1) (Fin [(0 : Fin 1)].length) ℚ)ᵀ +
         ((nnz_users_per_movie !![(5 : ℚ)] 0 : ℚ) * (1 / 10)) • 1) *ᵥ
         (fun i => (!![(50 / 11 : ℚ)] : Matrix (Fin 1) (Fin 1) ℚ) i 0) =
       (Matrix.of fun i j => !![(1 : ℚ)] i ([(0 : Fin 1)].get j) :
           Matrix (Fin 1) (Fin [(0 : Fin 1)].length) ℚ) *ᵥ
         fun j => !![(5 : ℚ)] ([(0 : Fin 1)].get j) 0) :=
  ⟨by decide, update_example_eval_C1,
   C1_update_solves_normal_equation.1 1 1 1 !![(5 : ℚ)] !![1] (1 / 10) 0 [0] !![50 / 11]
     (by decide) update_example_eval_C1⟩

/-! ### C2: columns of movies with zero observations -/

/-- Concrete evaluation of a movie update: ratings `!![4, 0]` (movie 0 rated
4 by the single user, movie 1 unobserved), user factor 1, `λ_movie = 1/2`:
the update solves `(1 + 1·(1/2)) z = 4`, giving `z = 8/3`, and returns the
matrix `!![8/3, 0]` — the unobserved movie's column comes from the fresh
`np.zeros` allocation. -/
theorem update_example_eval :
    update_movie_feature !![(4 : ℚ), 0] !![1] (1 / 2) (nnz_users_per_movie !![(4 : ℚ), 0])
      (nz_col_rowindices !![(4 : ℚ), 0]) = some !![8 / 3, 0] := by
  have hg : nz_col_rowindices !![(4 : ℚ), 0] = [(0, [0])] := by decide
  have hn : nnz_users_per_movie !![(4 : ℚ), 0] 0 = 1 := by decide
  unfold update_movie_feature
  rw [hg]
  simp only [List.foldlM_cons, List.foldlM_nil, solveLin_one]
  norm_num [hn, Matrix.mul_apply, Matrix.mulVec, Matrix.dotProduct, Matrix.smul_apply,
    Matrix.one_apply, Matrix.add_apply]
  funext i j
  fin_cases i <;> fin_cases j <;>
    simp [Matrix.updateColumn_apply, Matrix.smul_apply, Matrix.mulVec, Matrix.dotProduct] <;>
    norm_num

/-- C2 as stated is false: `update_movie_feature` builds its result from a
fresh `np.zeros((num_features, num_movies))`, so a movie with zero
observations gets the zero column, not its previous factor column.  Concrete
input: previous `movie_features = !![7, 5]`, ratings `!![4, 0]` (movie 1 has
no observation); after the update step movie 1's column is `0 ≠ 5`. -/
theorem C2_counterexample :
    update_movie_feature !![(4 : ℚ), 0] !![1] (1 / 2) (nnz_users_per_movie !![(4 : ℚ), 0])
      (nz_col_rowindices !![(4 : ℚ), 0]) = some !![8 / 3, 0] ∧
    (!![(8 / 3 : ℚ), 0] : Matrix (Fin 1) (Fin 2) ℚ) 0 1 ≠
      (!![(7 : ℚ), 5] : Matrix (Fin 1) (Fin 2) ℚ) 0 1 :=
  ⟨update_example_eval, by decide⟩

/-- C2 amended: after a successful movie-factor update, every movie with
zero observations has its factor column set to `0` (the zero column of the
fresh `np.zeros` result matrix); previous factor values are not retained. -/
theorem C2_zero_observation_column_is_zero :
    ∀ (U M F : ℕ) (train : Matrix (Fin U) (Fin M) ℚ)
      (user_features : Matrix (Fin F) (Fin U) ℚ) (lambda_movie : ℚ)
      (W : Matrix (Fin F) (Fin M) ℚ) (m : Fin M),
      update_movie_feature train user_features lambda_movie (nnz_users_per_movie train)
        (nz_col_rowindices train) = some W →
      nnz_users_per_movie train m = 0 → ∀ i, W i m = 0 := by
  intro U M F train user_features lambda_movie W m hupd hcnt i
  have hframe := foldlM_updateColumn_frame
    (fun mu : Fin M × List (Fin U) => solveLin
      ((Matrix.of fun i j => user_features i (mu.2.get j) :
          Matrix (Fin F) (Fin mu.2.length) ℚ) *
          (Matrix.of fun i j => user_features i (mu.2.get j) :
            Matrix (Fin F) (Fin mu.2.length) ℚ)ᵀ +
        (nnz_users_per_movie train mu.1 : ℚ) • (lambda_movie • 1))
      ((Matrix.of fun i j => user_features i (mu.2.get j) :
          Matrix (Fin F) (Fin mu.2.length) ℚ) *ᵥ
        fun j => train (mu.2.get j) mu.1))
    (nz_col_rowindices train) 0 W m hupd ?_ i
  · rw [hframe]; rfl
  · intro p hp hpm
    obtain ⟨hfil, hne⟩ := mem_nz_col_rowindices (show (p.1, p.2) ∈ _ from hp)
    apply hne
    rw [hfil, hpm]
    have : ((List.finRange U).filter fun u => train u m ≠ 0).length = 0 := hcnt
    exact List.length_eq_zero.mp this

/-- Witness for C2 at the concrete input of the counterexample: movie 1 has
zero observations and its updated column is zero. -/
theorem C2_witness :
    update_movie_feature !![(4 : ℚ), 0] !![1] (1 / 2) (nnz_users_per_movie !![(4 : ℚ), 0])
      (nz_col_rowindices !![(4 : ℚ), 0]) = some !![8 / 3, 0] ∧
    nnz_users_per_movie !![(4 : ℚ), 0] 1 = 0 ∧
    ∀ i, (!![(8 / 3 : ℚ), 0] : Matrix (Fin 1) (Fin 2) ℚ) i 1 = 0 :=
  ⟨update_example_eval, by decide,
   C2_zero_observation_column_is_zero 1 2 1 !![(4 : ℚ), 0] !![1] (1 / 2) !![8 / 3, 0] 1
     update_example_eval (by decide)⟩

/-! ### C3: termination and stopping rule of ALS -/

/-- C3 as stated ("for all inputs ALS terminates and returns the pair") is
false: on a training matrix with no observed entry, the first
`compute_error` call divides by `len(nz_train) = 0` and Python raises
`ZeroDivisionError`; no pair is returned.  Concrete input: the 1×1 zero
matrix, with `iterations = 50` and any initialisation. -/
theorem C3_counterexample :
    ALS (0 : Matrix (Fin 1) (Fin 1) ℚ) 0 0 1 50 (0 : Matrix (Fin 1) (Fin 1) ℚ)
      (0 : Matrix (Fin 1) (Fin 1) ℚ) = none := by
  rfl

/-- C3 amended: `ALS` always terminates; unless a numeric error occurs (and
propagates, yielding no result) it returns the
`(user_features, movie_features)` pair of the state reached after `n ≤
iterations` alternating update rounds, where the run stops early (at
`n < iterations`) exactly when the absolute difference of the last two RMSE
history entries first drops below `1e-5`: the test holds at round `n` and at
no earlier round. -/
theorem C3_terminates_with_stopping_rule :
    ∀ (U M F : ℕ) (train : Matrix (Fin U) (Fin M) ℚ)
      (lambda_movie lambda_user max_weight : ℚ) (iterations : ℕ)
      (rand_movie : Matrix (Fin F) (Fin M) ℚ) (rand_user : Matrix (Fin F) (Fin U) ℚ),
      ALS train lambda_movie lambda_user max_weight iterations rand_movie rand_user = none ∨
      ∃ n ≤ iterations, ∃ st : ALSState U M F,
        ALS_rounds train lambda_movie lambda_user n
          ⟨(init_MF max_weight rand_movie rand_user).1,
           (init_MF max_weight rand_movie rand_user).2, [0, 0]⟩ = some st ∧
        ALS train lambda_movie lambda_user max_weight iterations rand_movie rand_user =
          some (st.user_features, st.movie_features) ∧
        (n < iterations → ALS_change st < 1 / 100000) ∧
        ∀ k, 0 < k → k < n → ∀ st' : ALSState U M F,
          ALS_rounds train lambda_movie lambda_user k
            ⟨(init_MF max_weight rand_movie rand_user).1,
             (init_MF max_weight rand_movie rand_user).2, [0, 0]⟩ = some st' →
          ¬ ALS_change st' < 1 / 100000 := by
  intro U M F train lambda_movie lambda_user max_weight iterations rand_movie rand_user
  rcases ALS_loop_spec train lambda_movie lambda_user iterations
      ⟨(init_MF max_weight rand_movie rand_user).1,
       (init_MF max_weight rand_movie rand_user).2, [0, 0]⟩ with h | ⟨n, hn, st, h1, h2, h3, h4⟩
  · left
    unfold ALS
    rw [h]
    rfl
  · right
    refine ⟨n, hn, st, h1, ?_, h3, h4⟩
    unfold ALS
    rw [h2]
    rfl

/-! ### C9: preprocess_data on non-positive indices -/

/-- C9 as stated is false: a record with row index `0` (which is
non-positive) stores at `ratings[-1, col-1]`, and scipy resolves the
negative index by wrapping to the last row, so `preprocess_data` returns a
matrix instead of failing.  Concrete input: records
`[(1, 1, 3), (0, 1, 2)]` — the matrix is 1×1 and the second record lands on
row 0 via wraparound. -/
theorem C9_counterexample :
    ((0 : ℤ) ≤ 0) ∧ (preprocess_data [(1, 1, 3), (0, 1, 2)]).isSome = true := by
  exact ⟨le_refl 0, by decide⟩

theorem lilIndex_none_of_add_neg {n : ℕ} {i : ℤ} (h : i + n < 0) : lilIndex n i = none := by
  have hi : i < 0 := by omega
  unfold lilIndex
  dsimp only
  rw [if_pos hi, if_neg (by omega)]

theorem lilSet_none_of_row {B : LilMatrix} {i j : ℤ} {v : ℚ}
    (h : lilIndex B.rows i = none) : lilSet B i j v = none := by
  unfold lilSet
  rw [h]

theorem lilSet_none_of_col {B : LilMatrix} {i j : ℤ} {v : ℚ}
    (h : lilIndex B.cols j = none) : lilSet B i j v = none := by
  unfold lilSet
  rw [h]
  cases lilIndex B.rows i <;> rfl

/-- C9 amended: `preprocess_data` fails (no matrix is returned) when some
record's row or column index is so small that even scipy's negative-index
wraparound against the allocated shape `(max_row, max_col)` leaves it out of
range, i.e. `row < 1 - max_row` or `col < 1 - max_col`; merely non-positive
indices in `(1 - max, 0]` instead wrap around silently and a matrix is
returned. -/
theorem C9_preprocess_fails_out_of_range :
    ∀ (data : List (ℤ × ℤ × ℚ)) (mnr mxr mnc mxc : ℤ) (r : ℤ × ℤ × ℚ),
      statistics data = some (mnr, mxr, mnc, mxc) →
      r ∈ data →
      (r.1 < 1 - mxr ∨ r.2.1 < 1 - mxc) →
      preprocess_data data = none := by
  intro data mnr mxr mnc mxc r hstat hmem hbad
  unfold preprocess_data
  rw [hstat]
  show (lilNew mxr mxc >>= fun ratings =>
    data.foldlM (fun acc r => lilSet acc (r.1 - 1) (r.2.1 - 1) r.2.2) ratings) = none
  by_cases hneg : mxr < 0 ∨ mxc < 0
  · rw [show lilNew mxr mxc = none from by unfold lilNew; rw [if_pos hneg]]
    rfl
  · rw [show lilNew mxr mxc = some ⟨mxr.toNat, mxc.toNat, fun _ _ => 0⟩ from by
      unfold lilNew; rw [if_neg hneg]]
    push_neg at hneg
    have hr0 : ((mxr.toNat : ℤ)) = mxr := Int.toNat_of_nonneg (by omega)
    have hc0 : ((mxc.toNat : ℤ)) = mxc := Int.toNat_of_nonneg (by omega)
    show data.foldlM (fun acc r => lilSet acc (r.1 - 1) (r.2.1 - 1) r.2.2)
      ⟨mxr.toNat, mxc.toNat, fun _ _ => 0⟩ = none
    refine foldlM_lilSet_none hmem ?_
    intro B hBr hBc
    rcases hbad with hb | hb
    · refine lilSet_none_of_row ?_
      rw [hBr]
      show lilIndex mxr.toNat (r.1 - 1) = none
      exact lilIndex_none_of_add_neg (by omega)
    · refine lilSet_none_of_col ?_
      rw [hBc]
      show lilIndex mxc.toNat (r.2.1 - 1) = none
      exact lilIndex_none_of_add_neg (by omega)

/-- Witness for C9 at a concrete input: the record `(-5, 1, 2)` has
`-5 < 1 - max_row = 0`, and `preprocess_data` indeed fails. -/
theorem C9_witness :
    statistics [((1 : ℤ), (1 : ℤ), (3 : ℚ)), (-5, 1, 2)] = some (-5, 1, 1, 1) ∧
    ((-5 : ℤ), (1 : ℤ), (2 : ℚ)) ∈ [((1 : ℤ), (1 : ℤ), (3 : ℚ)), (-5, 1, 2)] ∧
    ((-5 : ℤ) < 1 - 1 ∨ (1 : ℤ) < 1 - 1) ∧
    preprocess_data [((1 : ℤ), (1 : ℤ), (3 : ℚ)), (-5, 1, 2)] = none :=
  ⟨by decide, by decide, Or.inl (by decide),
   C9_preprocess_fails_out_of_range [((1 : ℤ), (1 : ℤ), (3 : ℚ)), (-5, 1, 2)]
     (-5) 1 1 1 ((-5 : ℤ), (1 : ℤ), (2 : ℚ)) (by decide) (by decide) (Or.inl (by decide))⟩

/-! ### C8: optimize and stack -/

theorem foldlM_append_option {α β : Type} (f : β → α → Option β) :
    ∀ (l1 l2 : List α) (b : β),
      (l1 ++ l2).foldlM f b = l1.foldlM f b >>= fun b' => l2.foldlM f b' := by
  intro l1
  induction l1 with
  | nil => intro l2 b; rfl
  | cons x xs ih =>
      intro l2 b
      rw [List.cons_append, List.foldlM_cons, List.foldlM_cons]
      cases f b x with
      | none => rfl
      | some b' => exact ih l2 b'

/-- One model-name step of the `stack` loop. -/
def stack_step {R : ℕ} (weights : List ℚ) (predictions : PredTable R)
    (acc2 : (Fin R → ℚ) × ℕ) (name : String) : Option ((Fin R → ℚ) × ℕ) :=
  match weights.get? acc2.2 with
  | none => none
  | some w => some (fun r => acc2.1 r + w * predictions.col name r, acc2.2 + 1)

theorem stack_names_fold {R : ℕ} (weights : List ℚ) (predictions : PredTable R) :
    ∀ (names : List String) (g : Fin R → ℚ) (k : ℕ),
      k + names.length ≤ weights.length →
      names.foldlM (stack_step weights predictions) (g, k) =
        some (fun r => g r + ∑ i : Fin names.length,
            weights.getD (k + i) 0 * predictions.col (names.get i) r,
          k + names.length) := by
  intro names
  induction names with
  | nil =>
      intro g k _
      rw [List.foldlM_nil]
      congr 1
      refine Prod.ext ?_ rfl
      funext r
      simp
  | cons x xs ih =>
      intro g k hk
      rw [List.foldlM_cons]
      have hw : weights.get? k = some (weights.getD k 0) := by
        rw [List.getD_eq_getElem?_getD]
        cases hq : weights.get? k with
        | none =>
            exfalso
            have := List.get?_eq_none.mp hq
            simp only [List.length_cons] at hk
            omega
        | some w => rw [← List.get?_eq_getElem?, hq]; rfl
      show (stack_step weights predictions (g, k) x) >>= _ = _
      rw [show stack_step weights predictions (g, k) x =
          some (fun r => g r + weights.getD k 0 * predictions.col x r, k + 1) from by
        unfold stack_step; rw [hw]]
      show xs.foldlM (stack_step weights predictions)
        (fun r => g r + weights.getD k 0 * predictions.col x r, k + 1) = _
      rw [ih _ (k + 1) (by simp only [List.length_cons] at hk; omega)]
      congr 1
      refine Prod.ext ?_ (by simp [List.length_cons]; omega)
      funext r
      simp only [List.length_cons, Fin.sum_univ_succ, List.get_cons_succ, List.get_cons_zero,
        Fin.val_zero, Fin.val_succ, Nat.add_zero, add_assoc]
      congr 1
      congr 1
      refine Finset.sum_congr rfl fun i _ => ?_
      rw [show k + (1 + (i : ℕ)) = k + ((i : ℕ) + 1) from by omega]
      rfl

theorem stack_eq_flat_fold {R : ℕ} (weights : List ℚ) (predictions : PredTable R) :
    ∀ (models : List (String × List String)) (acc : (Fin R → ℚ) × ℕ),
      models.foldlM
        (fun (acc : (Fin R → ℚ) × ℕ) (fam : String × List String) =>
          fam.2.foldlM
            (fun (acc2 : (Fin R → ℚ) × ℕ) name =>
              match weights.get? acc2.2 with
              | none => none
              | some w => some (fun r => acc2.1 r + w * predictions.col name r, acc2.2 + 1))
            acc)
        acc =
      (models.flatMap Prod.snd).foldlM (stack_step weights predictions) acc := by
  intro models
  induction models with
  | nil => intro acc; rfl
  | cons fam ms ih =>
      intro acc
      rw [List.foldlM_cons, List.flatMap_cons, foldlM_append_option]
      have hfam : fam.2.foldlM
          (fun (acc2 : (Fin R → ℚ) × ℕ) name =>
            match weights.get? acc2.2 with
            | none => none
            | some w => some (fun r => acc2.1 r + w * predictions.col name r, acc2.2 + 1))
          acc = fam.2.foldlM (stack_step weights predictions) acc := rfl
      rw [hfam]
      cases fam.2.foldlM (stack_step weights predictions) acc with
      | none => rfl
      | some acc' => exact ih acc'

/-- C8: `optimize` initialises every weight uniformly to `1/numModels`
(`numModels` = number of prediction columns besides `User` and `Movie`),
calls `sco.minimize` with `method='SLSQP'` capped at `maxiter = 1000`, and
passes no `bounds` and no `constraints` — so nothing restricts the solver's
weights to be non-negative or bounded — and the blended prediction of
`stack` is the row-aligned sum over the catalogue's model names of
`weight_i · predictions[name_i]` (provided enough weights are supplied;
otherwise `weights[idx]` raises `IndexError`). -/
theorem C8_optimize_spec :
    ∀ (R : ℕ) (models : List (String × List String)) (ground_truth : Fin R → ℚ)
      (predictions : PredTable R) (weights : List ℚ),
      (optimize models ground_truth predictions).x0 =
        List.replicate (predictions.columns.length - 2)
          (1 / ((predictions.columns.length - 2 : ℕ) : ℚ)) ∧
      (∀ w ∈ (optimize models ground_truth predictions).x0,
        w = 1 / ((predictions.columns.length - 2 : ℕ) : ℚ)) ∧
      (optimize models ground_truth predictions).method = "SLSQP" ∧
      (optimize models ground_truth predictions).maxiter = 1000 ∧
      (optimize models ground_truth predictions).bounds = none ∧
      (optimize models ground_truth predictions).constraints = [] ∧
      ((models.flatMap Prod.snd).length ≤ weights.length →
        ∃ f, stack weights predictions models = some f ∧
          ∀ r, f r = ∑ i : Fin (models.flatMap Prod.snd).length,
            weights.getD i 0 * predictions.col ((models.flatMap Prod.snd).get i) r) := by
  intro R models ground_truth predictions weights
  refine ⟨rfl, ?_, rfl, rfl, rfl, rfl, ?_⟩
  · intro w hw
    exact (List.eq_of_mem_replicate hw)
  · intro hlen
    unfold stack
    rw [stack_eq_flat_fold weights predictions models ((fun _ => 0 : Fin R → ℚ), 0),
      stack_names_fold weights predictions (models.flatMap Prod.snd) (fun _ => 0) 0
        (by omega)]
    refine ⟨_, rfl, fun r => ?_⟩
    simp

/-- Witness for C8: one model family with one model, prediction column
constant 5, single weight 2. -/
theorem C8_witness :
    ((([("als", ["als"])] : List (String × List String)).flatMap Prod.snd).length ≤
      [(2 : ℚ)].length) ∧
    ∃ f, stack [(2 : ℚ)]
        (⟨["User", "Movie", "als"], fun _ _ => 5, fun _ => (1, 1)⟩ : PredTable 1)
        [("als", ["als"])] = some f ∧
      ∀ r, f r = ∑ i : Fin (([("als", ["als"])] :
          List (String × List String)).flatMap Prod.snd).length,
        [(2 : ℚ)].getD i 0 *
          (⟨["User", "Movie", "als"], fun _ _ => 5, fun _ => (1, 1)⟩ : PredTable 1).col
            ((([("als", ["als"])] : List (String × List String)).flatMap Prod.snd).get i) r :=
  ⟨by decide,
   (C8_optimize_spec 1 [("als", ["als"])] (fun _ => 4)
       ⟨["User", "Movie", "als"], fun _ _ => 5, fun _ => (1, 1)⟩ [2]).2.2.2.2.2.2
     (by decide)⟩

/-! ### C10: one split, shared by all candidates -/

theorem cv_fold_eq_search_best {U M : ℕ}
    (train_tr_list test_tr_list : List (Matrix (Fin U) (Fin M) ℚ))
    (rand : ℕ → ℕ → (f : ℕ) → Matrix (Fin f) (Fin M) ℚ × Matrix (Fin f) (Fin U) ℚ) :
    ∀ (cands : List (ℕ × ℕ × ℚ × ℚ × ℚ)) (st : CVState),
      cands.foldlM (cv_step train_tr_list test_tr_list rand) st =
      search_best (cands.zip (cands.map fun c =>
        cv_candidate train_tr_list test_tr_list c.2.1 c.2.2.1 c.2.2.2.1 c.2.2.2.2
          (fun k => rand c.1 k c.2.1))) st := by
  intro cands
  induction cands with
  | nil => intro st; rfl
  | cons c cs ih =>
      intro st
      rw [List.map_cons, List.zip_cons_cons]
      show cv_step train_tr_list test_tr_list rand st c >>= _ = _
      unfold search_best
      rw [List.foldlM_cons]
      have hstep : cv_step train_tr_list test_tr_list rand st c =
          (cv_candidate train_tr_list test_tr_list c.2.1 c.2.2.1 c.2.2.2.1 c.2.2.2.2
            (fun k => rand c.1 k c.2.1)) >>= fun test_rmse =>
            if test_rmse < st.best_rmse then
              some ⟨c.2.2.1, st.best_lambda_user, c.2.2.2.1, (c.2.1 : ℤ), test_rmse,
                some c.2.2.2.2⟩
            else some st := rfl
      rw [hstep]
      cases cv_candidate train_tr_list test_tr_list c.2.1 c.2.2.1 c.2.2.2.1 c.2.2.2.2
          (fun k => rand c.1 k c.2.1) with
      | none => rfl
      | some r =>
          show (if r < st.best_rmse then _ else some st) >>= _ =
            (if r < st.best_rmse then _ else some st) >>= _
          by_cases hr : r < st.best_rmse
          · rw [if_pos hr]
            exact ih _
          · rw [if_neg hr]
            exact ih st

/-- C10: `cv_ALS_random_search` calls `split_for_cv` once, before the
candidate loop: the same five train/validation fold pairs (the single
`split_for_cv` result, of length `k_fold = 5`) are used to score every one
of the 60 zipped hyper-parameter candidates, which is exhibited by the
search being the selection loop `search_best` over the per-candidate scores
all computed against that one shared fold list. -/
theorem C10_folds_shared_across_candidates :
    ∀ (U M : ℕ) (train : Matrix (Fin U) (Fin M) ℚ)
      (nb_features : List ℕ) (weights lambda_movies lambda_users : List ℚ)
      (cv_selects : ℕ → Fin M → List (Fin U))
      (rand : ℕ → ℕ → (f : ℕ) → Matrix (Fin f) (Fin M) ℚ × Matrix (Fin f) (Fin U) ℚ),
      nb_features.length = 60 → weights.length = 60 → lambda_movies.length = 60 →
      lambda_users.length = 60 →
      (split_for_cv train (1 / 5) 5 cv_selects).1.length = 5 ∧
      (split_for_cv train (1 / 5) 5 cv_selects).2.length = 5 ∧
      (nb_features.zip (weights.zip (lambda_movies.zip lambda_users))).enum.length = 60 ∧
      cv_ALS_random_search train nb_features weights lambda_movies lambda_users cv_selects
          rand =
        (search_best
          ((nb_features.zip (weights.zip (lambda_movies.zip lambda_users))).enum.zip
            ((nb_features.zip (weights.zip (lambda_movies.zip lambda_users))).enum.map fun c =>
              cv_candidate (split_for_cv train (1 / 5) 5 cv_selects).1
                (split_for_cv train (1 / 5) 5 cv_selects).2 c.2.1 c.2.2.1 c.2.2.2.1 c.2.2.2.2
                (fun k => rand c.1 k c.2.1)))
          ⟨-1, -1, -1, -1, 100, none⟩) >>= fun final =>
          match final.bset_lambda_user with
          | none => none
          | some lu =>
              some (final.best_num_feature, final.best_weight, final.best_lambda_movie, lu) := by
  intro U M train nb_features weights lambda_movies lambda_users cv_selects rand h1 h2 h3 h4
  refine ⟨?_, ?_, ?_, ?_⟩
  · show ((List.range 5).map _).length = 5
    rw [List.length_map, List.length_range]
  · show ((List.range 5).map _).length = 5
    rw [List.length_map, List.length_range]
  · rw [List.enum_length, List.length_zip, List.length_zip, List.length_zip, h1, h2, h3, h4]
    simp
  · unfold cv_ALS_random_search
    dsimp only
    rw [cv_fold_eq_search_best]

/-- Witness for C10 with four concrete 60-element candidate lists. -/
theorem C10_witness :
    (split_for_cv (0 : Matrix (Fin 1) (Fin 1) ℚ) (1 / 5) 5 (fun _ _ => [])).1.length = 5 ∧
    (split_for_cv (0 : Matrix (Fin 1) (Fin 1) ℚ) (1 / 5) 5 (fun _ _ => [])).2.length = 5 ∧
    ((List.replicate 60 (1 : ℕ)).zip ((List.replicate 60 (1 : ℚ)).zip
      ((List.replicate 60 (1 : ℚ)).zip (List.replicate 60 (1 : ℚ))))).enum.length = 60 ∧
    cv_ALS_random_search (0 : Matrix (Fin 1) (Fin 1) ℚ) (List.replicate 60 1)
        (List.replicate 60 1) (List.replicate 60 1) (List.replicate 60 1) (fun _ _ => [])
        (fun _ _ _ => (fun _ _ => 1, fun _ _ => 1)) =
      (search_best
        (((List.replicate 60 (1 : ℕ)).zip ((List.replicate 60 (1 : ℚ)).zip
          ((List.replicate 60 (1 : ℚ)).zip (List.replicate 60 (1 : ℚ))))).enum.zip
          (((List.replicate 60 (1 : ℕ)).zip ((List.replicate 60 (1 : ℚ)).zip
            ((List.replicate 60 (1 : ℚ)).zip (List.replicate 60 (1 : ℚ))))).enum.map fun c =>
            cv_candidate (split_for_cv (0 : Matrix (Fin 1) (Fin 1) ℚ) (1 / 5) 5
                (fun _ _ => [])).1
              (split_for_cv (0 : Matrix (Fin 1) (Fin 1) ℚ) (1 / 5) 5 (fun _ _ => [])).2
              c.2.1 c.2.2.1 c.2.2.2.1 c.2.2.2.2
              (fun k => (fun _ _ _ => ((fun _ _ => 1), (fun _ _ => 1))) c.1 k c.2.1)))
        ⟨-1, -1, -1, -1, 100, none⟩) >>= fun final =>
        match final.bset_lambda_user with
        | none => none
        | some lu =>
            some (final.best_num_feature, final.best_weight, final.best_lambda_movie, lu) :=
  C10_folds_shared_across_candidates 1 1 (0 : Matrix (Fin 1) (Fin 1) ℚ)
    (List.replicate 60 1) (List.replicate 60 1) (List.replicate 60 1) (List.replicate 60 1)
    (fun _ _ => []) (fun _ _ _ => (fun _ _ => 1, fun _ _ => 1))
    (by simp) (by simp) (by simp) (by simp)

/-! ### C6: the misspelled bset_lambda_user and the returned value -/

theorem snd_mem_of_mem_enum {α : Type} {l : List α} {x : ℕ × α} (h : x ∈ l.enum) :
    x.2 ∈ l := by
  have := List.mem_enum_iff_get?.mp h
  exact List.get?_mem this

/-- Invariant of the candidate loop: the misspelled `bset_lambda_user` is
either still unassigned or holds one of the candidate `lambda_user`
values. -/
theorem cv_fold_bset_invariant {U M : ℕ}
    (train_tr_list test_tr_list : List (Matrix (Fin U) (Fin M) ℚ))
    (rand : ℕ → ℕ → (f : ℕ) → Matrix (Fin f) (Fin M) ℚ × Matrix (Fin f) (Fin U) ℚ)
    (lus : List ℚ) :
    ∀ (cands : List (ℕ × ℕ × ℚ × ℚ × ℚ)) (st st' : CVState),
      (∀ c ∈ cands, c.2.2.2.2 ∈ lus) →
      (st.bset_lambda_user = none ∨ ∃ l ∈ lus, st.bset_lambda_user = some l) →
      cands.foldlM (cv_step train_tr_list test_tr_list rand) st = some st' →
      (st'.bset_lambda_user = none ∨ ∃ l ∈ lus, st'.bset_lambda_user = some l) := by
  intro cands
  induction cands with
  | nil =>
      intro st st' _ hst h
      rw [List.foldlM_nil] at h
      cases h
      exact hst
  | cons c cs ih =>
      intro st st' hmem hst h
      rw [List.foldlM_cons] at h
      cases hc : cv_candidate train_tr_list test_tr_list c.2.1 c.2.2.1 c.2.2.2.1 c.2.2.2.2
          (fun k => rand c.1 k c.2.1) with
      | none =>
          exfalso
          have hnone : cv_step train_tr_list test_tr_list rand st c = none := by
            unfold cv_step
            rw [hc]
            rfl
          rw [hnone] at h
          cases h
      | some r =>
          have hsome : cv_step train_tr_list test_tr_list rand st c =
              if r < st.best_rmse then
                some ⟨c.2.2.1, st.best_lambda_user, c.2.2.2.1, (c.2.1 : ℤ), r,
                  some c.2.2.2.2⟩
              else some st := by
            unfold cv_step
            rw [hc]
            rfl
          rw [hsome] at h
          by_cases hr : r < st.best_rmse
          · rw [if_pos hr] at h
            refine ih _ st' (fun d hd => hmem d (List.mem_cons_of_mem _ hd)) ?_ h
            exact Or.inr ⟨c.2.2.2.2, hmem c (List.mem_cons_self c cs), rfl⟩
          · rw [if_neg hr] at h
            exact ih st st' (fun d hd => hmem d (List.mem_cons_of_mem _ hd)) hst h

/-- Whenever the random search returns a tuple at all, the returned
`lambda_user` component is one of the sampled candidate `lambda_user`
values: the "improved" branch writes it into the misspelled
`bset_lambda_user`, and that same misspelled variable is what the function
returns. -/
theorem cv_returns_lambda_user_mem {U M : ℕ} (train : Matrix (Fin U) (Fin M) ℚ)
    (nb_features : List ℕ) (weights lambda_movies lambda_users : List ℚ)
    (cv_selects : ℕ → Fin M → List (Fin U))
    (rand : ℕ → ℕ → (f : ℕ) → Matrix (Fin f) (Fin M) ℚ × Matrix (Fin f) (Fin U) ℚ)
    (t : ℤ × ℚ × ℚ × ℚ)
    (h : cv_ALS_random_search train nb_features weights lambda_movies lambda_users cv_selects
      rand = some t) : t.2.2.2 ∈ lambda_users := by
  unfold cv_ALS_random_search at h
  dsimp only at h
  cases hfold : (nb_features.zip (weights.zip (lambda_movies.zip lambda_users))).enum.foldlM
      (cv_step (split_for_cv train (1 / 5) 5 cv_selects).1
        (split_for_cv train (1 / 5) 5 cv_selects).2 rand)
      ⟨-1, -1, -1, -1, 100, none⟩ with
  | none => rw [hfold] at h; cases h
  | some final =>
      rw [hfold] at h
      have hinv := cv_fold_bset_invariant (split_for_cv train (1 / 5) 5 cv_selects).1
        (split_for_cv train (1 / 5) 5 cv_selects).2 rand lambda_users
        (nb_features.zip (weights.zip (lambda_movies.zip lambda_users))).enum
        ⟨-1, -1, -1, -1, 100, none⟩ final ?_ (Or.inl rfl) hfold
      · cases hbset : final.bset_lambda_user with
        | none =>
            exfalso
            have : (match final.bset_lambda_user with
                | none => (none : Option (ℤ × ℚ × ℚ × ℚ))
                | some lu => some (final.best_num_feature, final.best_weight,
                    final.best_lambda_movie, lu)) = some t := h
            rw [hbset] at this
            cases this
        | some lu =>
            have : (match final.bset_lambda_user with
                | none => (none : Option (ℤ × ℚ × ℚ × ℚ))
                | some lu => some (final.best_num_feature, final.best_weight,
                    final.best_lambda_movie, lu)) = some t := h
            rw [hbset] at this
            cases this
            rcases hinv with hn | ⟨l, hl, he⟩
            · rw [hbset] at hn; cases hn
            · rw [hbset] at he
              cases he
              exact hl
      · intro c hcmem
        have h2 := snd_mem_of_mem_enum hcmem
        have h3 := (List.of_mem_zip h2).2
        have h4 := (List.of_mem_zip h3).2
        exact (List.of_mem_zip h4).2

/-- C6 as stated is false.  The claim: the "improved" branch assigns the new
best `lambda_user` to a differently-spelled variable than the one returned,
so the returned best `lambda_user` can remain the sentinel `-1` even after
some candidate improved the RMSE.  In the code, however, the `return`
statement returns exactly the misspelled variable `bset_lambda_user` that
the improved branch assigns, so whenever the search returns at all (which
requires an improvement — otherwise the final `print` raises `NameError`),
the returned `lambda_user` is one of the sampled candidate values, which for
candidates drawn from `[0.01, 1]` is never `-1`. -/
theorem C6_counterexample :
    ¬ ∃ (U M : ℕ) (train : Matrix (Fin U) (Fin M) ℚ) (nb_features : List ℕ)
        (weights lambda_movies lambda_users : List ℚ)
        (cv_selects : ℕ → Fin M → List (Fin U))
        (rand : ℕ → ℕ → (f : ℕ) → Matrix (Fin f) (Fin M) ℚ × Matrix (Fin f) (Fin U) ℚ)
        (t : ℤ × ℚ × ℚ × ℚ),
      (∀ l ∈ lambda_users, 1 / 100 ≤ l ∧ l ≤ 1) ∧
      cv_ALS_random_search train nb_features weights lambda_movies lambda_users cv_selects
        rand = some t ∧
      t.2.2.2 = -1 := by
  rintro ⟨U, M, train, nb_features, weights, lambda_movies, lambda_users, cv_selects, rand, t,
    hrange, hcv, hsent⟩
  have hmem := cv_returns_lambda_user_mem train nb_features weights lambda_movies lambda_users
    cv_selects rand t hcv
  have hge := (hrange _ hmem).1
  rw [hsent] at hge
  norm_num at hge

/-- C6 amended: whenever `cv_ALS_random_search` returns a tuple, its
`lambda_user` component is one of the sampled candidate `lambda_user` values
(the improved branch's misspelled `bset_lambda_user` is exactly the variable
returned); the correctly spelled sentinel `best_lambda_user = -1` is never
returned, and a run with no improvement fails with `NameError` instead of
returning the sentinel. -/
theorem C6_returned_lambda_user_is_a_candidate :
    ∀ (U M : ℕ) (train : Matrix (Fin U) (Fin M) ℚ) (nb_features : List ℕ)
      (weights lambda_movies lambda_users : List ℚ)
      (cv_selects : ℕ → Fin M → List (Fin U))
      (rand : ℕ → ℕ → (f : ℕ) → Matrix (Fin f) (Fin M) ℚ × Matrix (Fin f) (Fin U) ℚ),
      (cv_ALS_random_search train nb_features weights lambda_movies lambda_users cv_selects
          rand).elim True (fun t => t.2.2.2 ∈ lambda_users) := by
  intro U M train nb_features weights lambda_movies lambda_users cv_selects rand
  cases hcv : cv_ALS_random_search train nb_features weights lambda_movies lambda_users
      cv_selects rand with
  | none => trivial
  | some t =>
      exact cv_returns_lambda_user_mem train nb_features weights lambda_movies lambda_users
        cv_selects rand t hcv

/-! ### C5: a solver error during one candidate aborts the whole search

`cv_ALS_random_search` contains no `try`/`except`: a `LinAlgError` raised
inside `ALS` for one candidate propagates through the candidate loop and
aborts the entire search.  Nothing is skipped or logged. -/

theorem cv_first_candidate_error_aborts :
    ∀ (U M : ℕ) (train : Matrix (Fin U) (Fin M) ℚ) (f : ℕ) (fs : List ℕ)
      (w : ℚ) (ws : List ℚ) (lm : ℚ) (lms : List ℚ) (lu : ℚ) (lus : List ℚ)
      (cv_selects : ℕ → Fin M → List (Fin U))
      (rand : ℕ → ℕ → (g : ℕ) → Matrix (Fin g) (Fin M) ℚ × Matrix (Fin g) (Fin U) ℚ),
      cv_candidate (split_for_cv train (1 / 5) 5 cv_selects).1
        (split_for_cv train (1 / 5) 5 cv_selects).2 f w lm lu (fun k => rand 0 k f) = none →
      cv_ALS_random_search train (f :: fs) (w :: ws) (lm :: lms) (lu :: lus) cv_selects rand
        = none := by
  intro U M train f fs w ws lm lms lu lus cv_selects rand h
  unfold cv_ALS_random_search
  dsimp only
  rw [List.zip_cons_cons, List.zip_cons_cons, List.zip_cons_cons, List.enum_cons,
    List.foldlM_cons]
  have hstep : cv_step (split_for_cv train (1 / 5) 5 cv_selects).1
      (split_for_cv train (1 / 5) 5 cv_selects).2 rand ⟨-1, -1, -1, -1, 100, none⟩
      (0, (f, (w, (lm, lu)))) = none := by
    unfold cv_step
    dsimp only
    rw [h]
    rfl
  rw [hstep]
  rfl

/-- C5 amended: if evaluating the *first* candidate fails with a solver
error (its five-fold evaluation is `none`), the entire random search returns
nothing, regardless of how many candidates remain. -/
theorem C5_solver_error_aborts_search :
    ∀ (U M : ℕ) (train : Matrix (Fin U) (Fin M) ℚ) (f : ℕ) (fs : List ℕ)
      (w : ℚ) (ws : List ℚ) (lm : ℚ) (lms : List ℚ) (lu : ℚ) (lus : List ℚ)
      (cv_selects : ℕ → Fin M → List (Fin U))
      (rand : ℕ → ℕ → (g : ℕ) → Matrix (Fin g) (Fin M) ℚ × Matrix (Fin g) (Fin U) ℚ),
      cv_candidate (split_for_cv train (1 / 5) 5 cv_selects).1
        (split_for_cv train (1 / 5) 5 cv_selects).2 f w lm lu (fun k => rand 0 k f) = none →
      cv_ALS_random_search train (f :: fs) (w :: ws) (lm :: lms) (lu :: lus) cv_selects rand
        = none := by
  intro U M train f fs w ws lm lms lu lus cv_selects rand h
  exact cv_first_candidate_error_aborts U M train f fs w ws lm lms lu lus cv_selects rand h

/-! Concrete data for the C5 witness and counterexample: 5 users all rating
the single movie 5; per-fold draws select user 0, so each fold trains on
users 1-4 (`trA`) and tests on user 0 (`teA`).  The good candidate
(`F = 1, weight = 1, λ_movie = 0, λ_user = 0`) fits the training fold
exactly and converges after one round with training RMSE 0 and fold RMSE 5;
the bad candidate (`F = 1, weight = 0, λ_movie = 0, λ_user = 1/2`) makes the
first normal-equation matrix `0·0ᵀ + 4·0·I = 0`, so `np.linalg.solve`
raises. -/

def train5 : Matrix (Fin 5) (Fin 1) ℚ := fun _ _ => 5

def trA : Matrix (Fin 5) (Fin 1) ℚ := fun i _ => if i = 0 then 0 else 5

def teA : Matrix (Fin 5) (Fin 1) ℚ := fun i _ => if i = 0 then 5 else 0

def mfA : Matrix (Fin 1) (Fin 1) ℚ := fun _ _ => 5

def ufA : Matrix (Fin 1) (Fin 5) ℚ := fun _ u => if u = 0 then 0 else 1

def onesM : Matrix (Fin 1) (Fin 1) ℚ := fun _ _ => 1

def onesU : Matrix (Fin 1) (Fin 5) ℚ := fun _ _ => 1

def sel5 : ℕ → Fin 1 → List (Fin 5) := fun _ _ => [0]

def rand5 : ℕ → ℕ → (g : ℕ) → Matrix (Fin g) (Fin 1) ℚ × Matrix (Fin g) (Fin 5) ℚ :=
  fun _ _ _ => (fun _ _ => 1, fun _ _ => 1)

theorem split5_eval :
    split_for_cv train5 (1 / 5) 5 sel5 = (List.replicate 5 trA, List.replicate 5 teA) := by
  decide

theorem update_movie_bad_eval :
    update_movie_feature trA ((0 : ℚ) • onesU) 0 (nnz_users_per_movie trA)
      (nz_col_rowindices trA) = none := by
  unfold update_movie_feature
  rw [show nz_col_rowindices trA = [(0, [1, 2, 3, 4])] from by decide]
  simp only [List.foldlM_cons, List.foldlM_nil, solveLin_one]
  rw [if_pos (by simp [Matrix.mul_apply, Matrix.smul_apply, Matrix.add_apply, onesU])]
  rfl

theorem ALS_bad_eval : ALS trA 0 (1 / 2) 0 50 onesM onesU = none := by
  have hround : ALS_round trA 0 (1 / 2)
      (⟨(0 : ℚ) • onesM, (0 : ℚ) • onesU, [0, 0]⟩ : ALSState 5 1 1) = none := by
    show (update_movie_feature trA ((0 : ℚ) • onesU) 0 (nnz_users_per_movie trA)
      (nz_col_rowindices trA) >>= _) = none
    rw [update_movie_bad_eval]
    rfl
  show (ALS_loop trA 0 (1 / 2) 50
    (⟨(0 : ℚ) • onesM, (0 : ℚ) • onesU, [0, 0]⟩ : ALSState 5 1 1)).map _ = none
  rw [show (50 : ℕ) = 49 + 1 from rfl, ALS_loop_succ, hround]
  rfl

theorem cv_fold_eval_bad (acc : List ℝ) (k : ℕ) :
    cv_fold_eval 1 0 0 (1 / 2) (fun _ => (onesM, onesU)) acc (k, (trA, teA)) = none := by
  unfold cv_fold_eval
  dsimp only
  rw [ALS_bad_eval]
  rfl

theorem cv_candidate_bad_eval :
    cv_candidate (List.replicate 5 trA) (List.replicate 5 teA) 1 0 0 (1 / 2)
      (fun _ => (onesM, onesU)) = none := by
  unfold cv_candidate
  rw [show ((List.replicate 5 trA).zip (List.replicate 5 teA)).enum =
      (0, (trA, teA)) :: [(1, (trA, teA)), (2, (trA, teA)), (3, (trA, teA)), (4, (trA, teA))]
    from by decide]
  rw [List.foldlM_cons, cv_fold_eval_bad]
  rfl

/-- Witness for C5: on the concrete five-user data, the first candidate's
evaluation fails (singular normal equations from `weight = 0`,
`λ_movie = 0`), and the whole search — a second candidate notwithstanding —
returns nothing. -/
theorem C5_witness :
    cv_candidate (split_for_cv train5 (1 / 5) 5 sel5).1 (split_for_cv train5 (1 / 5) 5 sel5).2
      1 0 0 (1 / 2) (fun k => rand5 0 k 1) = none ∧
    cv_ALS_random_search train5 [1, 1] [0, 1] [0, 0] [1 / 2, 0] sel5 rand5 = none := by
  have hbad : cv_candidate (split_for_cv train5 (1 / 5) 5 sel5).1
      (split_for_cv train5 (1 / 5) 5 sel5).2 1 0 0 (1 / 2) (fun k => rand5 0 k 1) = none := by
    rw [split5_eval]
    exact cv_candidate_bad_eval
  exact ⟨hbad,
    C5_solver_error_aborts_search 5 1 train5 1 [1] 0 [1] 0 [0] (1 / 2) [0] sel5 rand5 hbad⟩

theorem update_movie_good_eval :
    update_movie_feature trA ((1 : ℚ) • onesU) 0 (nnz_users_per_movie trA)
      (nz_col_rowindices trA) = some mfA := by
  unfold update_movie_feature
  rw [show nz_col_rowindices trA = [(0, [1, 2, 3, 4])] from by decide]
  simp only [List.foldlM_cons, List.foldlM_nil, solveLin_one]
  rw [if_neg (by
    norm_num [Matrix.mul_apply, Matrix.smul_apply, Matrix.add_apply, onesU,
      Fin.sum_univ_four])]
  norm_num [Matrix.mul_apply, Matrix.mulVec, Matrix.dotProduct, Matrix.smul_apply,
    Matrix.add_apply, onesU, trA, Fin.sum_univ_four]
  funext i j
  fin_cases i
  fin_cases j
  all_goals simp [Matrix.updateColumn_apply, Matrix.smul_apply, Matrix.mulVec,
    Matrix.dotProduct, mfA, trA, onesU, Fin.sum_univ_four]
  all_goals rw [if_neg (by decide)]
  all_goals norm_num

theorem update_user_good_eval :
    update_user_feature trA mfA 0 (nnz_movies_per_user trA)
      (nz_row_colindices trA) = some ufA := by
  unfold update_user_feature
  rw [show nz_row_colindices trA = [(1, [0]), (2, [0]), (3, [0]), (4, [0])] from by decide]
  simp only [List.foldlM_cons, List.foldlM_nil, solveLin_one]
  rw [if_neg (by norm_num [Matrix.mul_apply, Matrix.smul_apply, Matrix.add_apply, mfA])]
  simp only [Option.map_some', Option.some_bind, Option.bind_eq_bind]
  rw [if_neg (by norm_num [Matrix.mul_apply, Matrix.smul_apply, Matrix.add_apply, mfA])]
  simp only [Option.map_some', Option.some_bind, Option.bind_eq_bind]
  rw [if_neg (by norm_num [Matrix.mul_apply, Matrix.smul_apply, Matrix.add_apply, mfA])]
  simp only [Option.map_some', Option.some_bind, Option.bind_eq_bind]
  rw [if_neg (by norm_num [Matrix.mul_apply, Matrix.smul_apply, Matrix.add_apply, mfA])]
  simp only [Option.map_some', Option.some_bind, Option.bind_eq_bind]
  norm_num [Matrix.mul_apply, Matrix.mulVec, Matrix.dotProduct, Matrix.smul_apply,
    Matrix.add_apply, mfA, trA]
  funext i j
  fin_cases i
  fin_cases j
  all_goals simp [Matrix.updateColumn_apply, Matrix.smul_apply, Matrix.mulVec,
    Matrix.dotProduct, ufA, mfA, trA]
  all_goals norm_num

theorem compute_error_train_good :
    compute_error trA mfA ufA (nonzeroPairs trA) = some 0 := by
  have hnz : nonzeroPairs trA = [(1, 0), (2, 0), (3, 0), (4, 0)] := by decide
  have hmse : compute_mse trA mfA ufA [((1 : Fin 5), (0 : Fin 1)), (2, 0), (3, 0), (4, 0)]
      = 0 := by
    unfold compute_mse
    simp [List.foldl_cons, List.foldl_nil, Matrix.dotProduct, trA, mfA, ufA]
  unfold compute_error
  rw [hnz, if_neg (by decide), hmse]
  norm_num [Real.sqrt_zero]

theorem ALS_round_good_eval :
    ALS_round trA 0 0 (⟨(1 : ℚ) • onesM, (1 : ℚ) • onesU, [0, 0]⟩ : ALSState 5 1 1) =
      some ⟨mfA, ufA, [0, 0, 0]⟩ := by
  unfold ALS_round
  dsimp only
  rw [update_movie_good_eval]
  simp only [Option.bind_eq_bind, Option.some_bind]
  rw [update_user_good_eval]
  simp only [Option.bind_eq_bind, Option.some_bind]
  rw [compute_error_train_good]
  rfl

theorem ALS_good_eval : ALS trA 0 0 1 50 onesM onesU = some (ufA, mfA) := by
  show (ALS_loop trA 0 0 50
    (⟨(1 : ℚ) • onesM, (1 : ℚ) • onesU, [0, 0]⟩ : ALSState 5 1 1)).map _ = _
  rw [show (50 : ℕ) = 49 + 1 from rfl, ALS_loop_succ, ALS_round_good_eval]
  show Option.map (fun st : ALSState 5 1 1 => (st.user_features, st.movie_features))
    (if ALS_change (⟨mfA, ufA, [0, 0, 0]⟩ : ALSState 5 1 1) < 1 / 100000
     then some (⟨mfA, ufA, [0, 0, 0]⟩ : ALSState 5 1 1)
     else ALS_loop trA 0 0 49 ⟨mfA, ufA, [0, 0, 0]⟩) = some (ufA, mfA)
  rw [if_pos (by norm_num [ALS_change, List.getD_cons_zero, List.getD_cons_succ])]
  rfl

theorem compute_error_test_good :
    compute_error teA mfA ufA (nonzeroPairs teA) = some 5 := by
  have hnz : nonzeroPairs teA = [(0, 0)] := by decide
  have hmse : compute_mse teA mfA ufA [((0 : Fin 5), (0 : Fin 1))] = 25 := by
    unfold compute_mse
    norm_num [List.foldl_cons, List.foldl_nil, Matrix.dotProduct, teA, mfA, ufA]
  unfold compute_error
  rw [hnz, if_neg (by decide), hmse]
  rw [show ((((25 : ℚ) : ℝ)) / (([((0 : Fin 5), (0 : Fin 1))].length : ℕ) : ℝ)) = (5 : ℝ) ^ 2
    from by simp; norm_num]
  rw [Real.sqrt_sq (by norm_num)]

theorem cv_fold_eval_good (acc : List ℝ) (k : ℕ) :
    cv_fold_eval 1 1 0 0 (fun _ => (onesM, onesU)) acc (k, (trA, teA)) =
      some (acc ++ [5]) := by
  unfold cv_fold_eval
  dsimp only
  rw [ALS_good_eval]
  simp only [Option.bind_eq_bind, Option.some_bind]
  rw [compute_error_test_good]
  rfl

theorem cv_candidate_good_eval :
    cv_candidate (List.replicate 5 trA) (List.replicate 5 teA) 1 1 0 0
      (fun _ => (onesM, onesU)) = some 5 := by
  unfold cv_candidate
  have hfold : (((List.replicate 5 trA).zip (List.replicate 5 teA)).enum).foldlM
      (cv_fold_eval 1 1 0 0 (fun _ => (onesM, onesU))) [] = some [5, 5, 5, 5, 5] := by
    rw [show ((List.replicate 5 trA).zip (List.replicate 5 teA)).enum =
        [(0, (trA, teA)), (1, (trA, teA)), (2, (trA, teA)), (3, (trA, teA)), (4, (trA, teA))]
      from by decide]
    rw [List.foldlM_cons, cv_fold_eval_good]
    show List.foldlM _ ([] ++ [(5 : ℝ)]) _ = _
    rw [List.foldlM_cons, cv_fold_eval_good]
    show List.foldlM _ (([] ++ [(5 : ℝ)]) ++ [5]) _ = _
    rw [List.foldlM_cons, cv_fold_eval_good]
    show List.foldlM _ ((([] ++ [(5 : ℝ)]) ++ [5]) ++ [5]) _ = _
    rw [List.foldlM_cons, cv_fold_eval_good]
    show List.foldlM _ (((([] ++ [(5 : ℝ)]) ++ [5]) ++ [5]) ++ [5]) _ = _
    rw [List.foldlM_cons, cv_fold_eval_good]
    show List.foldlM _ ((((([] ++ [(5 : ℝ)]) ++ [5]) ++ [5]) ++ [5]) ++ [5]) _ = _
    rw [List.foldlM_nil]
    simp
  rw [hfold]
  show some (([5, 5, 5, 5, 5] : List ℝ).sum / (([5, 5, 5, 5, 5] : List ℝ).length : ℝ)) = _
  norm_num

theorem cv_good_run :
    cv_ALS_random_search train5 [1] [1] [0] [0] sel5 rand5 = some (1, 1, 0, 0) := by
  unfold cv_ALS_random_search
  dsimp only
  rw [split5_eval]
  dsimp only
  rw [show (([(1 : ℕ)].zip ([(1 : ℚ)].zip ([(0 : ℚ)].zip [(0 : ℚ)]))).enum) =
    [(0, (1, ((1 : ℚ), ((0 : ℚ), (0 : ℚ)))))] from by decide]
  rw [List.foldlM_cons]
  have hstep : cv_step (List.replicate 5 trA) (List.replicate 5 teA) rand5
      ⟨-1, -1, -1, -1, 100, none⟩ (0, (1, ((1 : ℚ), ((0 : ℚ), (0 : ℚ))))) =
      some ⟨1, -1, 0, 1, 5, some 0⟩ := by
    unfold cv_step
    dsimp only
    rw [show (fun k => rand5 0 k 1) = (fun _ => (onesM, onesU)) from rfl]
    rw [cv_candidate_good_eval]
    show (if (5 : ℝ) < 100 then _ else _) = _
    rw [if_pos (by norm_num)]
    norm_num
  rw [hstep]
  rfl

/-- C5 as stated is false: there is no `try`/`except` in
`cv_ALS_random_search`, so a candidate whose training fails with a singular
normal-equation matrix is not skipped — the exception propagates and the
whole search returns nothing.  Concretely: with the failing candidate
(`weight = 0, λ_movie = 0`) first in the list, the two-candidate search
yields nothing, although the same search run on just the remaining good
candidate succeeds and returns it. -/
theorem C5_counterexample :
    cv_ALS_random_search train5 [1, 1] [0, 1] [0, 0] [1 / 2, 0] sel5 rand5 = none ∧
    cv_ALS_random_search train5 [1] [1] [0] [0] sel5 rand5 = some (1, 1, 0, 0) := by
  constructor
  · refine cv_first_candidate_error_aborts 5 1 train5 1 [1] 0 [1] 0 [0] (1 / 2) [0] sel5
      rand5 ?_
    rw [split5_eval]
    exact cv_candidate_bad_eval
  · exact cv_good_run

end MLP
